import Mathlib

/-!
# A verification development for the `lisp` package

Two source files are embedded:

* `builtin.go` — the builtin library of the environment-based interpreter
  (`Add`, `Sub`, `Mul`, `Div`, `Head`, `Tail`, `List`, `Eval`, `Join`, `Def`),
  in namespace `Builtin`;
* `parse.go` — the minimal integer-only evaluator (`ExpressionNode.Evaluate`,
  `repeatOperation`) and the parser (`trimWhitespace`, `findMatchingClose`,
  `ParseExpression`), in namespace `Parse`.

Go's `int` is modelled as a 64-bit two's-complement integer: values are `Int`s
and every arithmetic result is reduced by `wrapInt`.  A Go run-time panic
(index out of range, integer divide by zero, failed type assertion) is an
explicit `Except.error` outcome, so that "never crashes" is a statement about
the embedded function.  The builtin `List`, which only wraps its arguments, is
not needed by any statement below and is left out.

`ParseExpression` recurses on sub-slices of its input; it is defined by
well-founded recursion on the length of the token list and is total.  The
library function `strconv.Atoi` is modelled from its documented behaviour.
-/

/-- Reduction of a mathematical integer to Go's 64-bit two's-complement `int`. -/
def wrapInt (x : Int) : Int := (x + 2 ^ 63) % 2 ^ 64 - 2 ^ 63

/-- The range of Go's 64-bit `int`. -/
def inIntRange (x : Int) : Prop := -(2 ^ 63) ≤ x ∧ x < 2 ^ 63

instance (x : Int) : Decidable (inIntRange x) := by
  unfold inIntRange; infer_instance

/-- Go run-time panics that the embedded code can raise. -/
inductive Panic where
  | indexOutOfRange
  | divideByZero
  | failedTypeAssertion
  deriving DecidableEq, Repr

namespace Builtin

/-- The `Type` field of an `ExpressionNode`. -/
inductive ExprType where
  | SExpression
  | QExpression
  deriving DecidableEq, Repr

/-- The `error` values stored in an `ErrorNode`: either the struct
`IncorrectType{Expected, Actual}` or a message made by `errors.New` / `fmt.Errorf`. -/
inductive LispError where
  | IncorrectType (Expected Actual : String)
  | message (text : String)
  deriving DecidableEq, Repr

/-- Modelled from the spec: the `Node` variants used by `builtin.go`
(`NumberNode`, `IdentifierNode`, `ExpressionNode{Type, Nodes}`, `ErrorNode{error}`);
their type declarations are not among the source files. -/
inductive Node where
  | NumberNode (value : Int)
  | IdentifierNode (name : String)
  | ExpressionNode (type : ExprType) (nodes : List Node)
  | ErrorNode (err : LispError)

/-- Modelled from the spec: the `Environment`, a mapping from identifier name to
`Node` with unique keys (a Go map keyed by `IdentifierNode`). -/
def Environment : Type := String → Option Node

/-- The map assignment `(*env)[key] = value`. -/
def Environment.set (env : Environment) (key : String) (value : Node) : Environment :=
  fun k => if k = key then some value else env k

/-- The empty environment. -/
def Environment.empty : Environment := fun _ => none

/-- What a call of a builtin produces: a panic, or the returned node together
with the environment after the call. -/
abbrev Outcome : Type := Except Panic (Node × Environment)

section Builtins

-- The method `Node.TypeString()` is declared outside the embedded files; it
-- is a parameter of every builtin that reports a type error.
variable (TypeString : Node → String)

/-- The loop of `Add`: `sum` is the running total, the list holds the arguments
still to be visited. -/
def addLoop (sum : Int) : List Node → Node
  | [] => .NumberNode sum
  | .NumberNode n :: rest => addLoop (wrapInt (sum + n)) rest
  | node :: _ => .ErrorNode (.IncorrectType "Number" (TypeString node))

/-- The builtin `Add`. -/
def Add (env : Environment) (args : List Node) : Outcome :=
  .ok (addLoop TypeString 0 args, env)

/-- The loop of `Sub` over `args[1:]`. -/
def subLoop (sum : Int) : List Node → Node
  | [] => .NumberNode sum
  | .NumberNode n :: rest => subLoop (wrapInt (sum - n)) rest
  | node :: _ => .ErrorNode (.IncorrectType "Number" (TypeString node))

/-- The builtin `Sub`.  `args[0]` on an empty slice panics. -/
def Sub (env : Environment) (args : List Node) : Outcome :=
  if args.length = 1 then
    match args with
    | [] => .error .indexOutOfRange
    | .NumberNode n :: _ => .ok (.NumberNode (wrapInt (-n)), env)
    | node :: _ => .ok (.ErrorNode (.IncorrectType "Number" (TypeString node)), env)
  else
    match args with
    | [] => .error .indexOutOfRange
    | .NumberNode sum :: rest => .ok (subLoop TypeString sum rest, env)
    | node :: _ => .ok (.ErrorNode (.IncorrectType "Number" (TypeString node)), env)

/-- The loop of `Mul` over `args[1:]`. -/
def mulLoop (sum : Int) : List Node → Node
  | [] => .NumberNode sum
  | .NumberNode n :: rest => mulLoop (wrapInt (sum * n)) rest
  | node :: _ => .ErrorNode (.IncorrectType "Number" (TypeString node))

/-- The builtin `Mul`. -/
def Mul (env : Environment) (args : List Node) : Outcome :=
  match args with
  | [] => .error .indexOutOfRange
  | .NumberNode sum :: rest => .ok (mulLoop TypeString sum rest, env)
  | node :: _ => .ok (.ErrorNode (.IncorrectType "Number" (TypeString node)), env)

/-- The loop of `Div` over `args[1:]`.  Go's `/` on `int` truncates toward zero
and panics when the divisor is zero; there is no zero check in the source. -/
def divLoop (sum : Int) : List Node → Except Panic Node
  | [] => .ok (.NumberNode sum)
  | .NumberNode n :: rest =>
    if n = 0 then .error .divideByZero else divLoop (wrapInt (Int.tdiv sum n)) rest
  | node :: _ => .ok (.ErrorNode (.IncorrectType "Number" (TypeString node)))

/-- The builtin `Div`. -/
def Div (env : Environment) (args : List Node) : Outcome :=
  match args with
  | [] => .error .indexOutOfRange
  | .NumberNode sum :: rest =>
    match divLoop TypeString sum rest with
    | .ok node => .ok (node, env)
    | .error p => .error p
  | node :: _ => .ok (.ErrorNode (.IncorrectType "Number" (TypeString node)), env)

/-- The builtin `Head`. -/
def Head (env : Environment) (args : List Node) : Outcome :=
  if args.length > 1 then
    .ok (.ErrorNode (.message ("expected 1 argument, got " ++ toString args.length)), env)
  else
    match args with
    | [] => .error .indexOutOfRange
    | .ExpressionNode .QExpression nodes :: _ =>
      match nodes with
      | [] => .ok (.ErrorNode (.message "cannot take head of empty list"), env)
      | first :: _ => .ok (first, env)
    | node :: _ => .ok (.ErrorNode (.IncorrectType "Q-Expression" (TypeString node)), env)

/-- The builtin `Tail`. -/
def Tail (env : Environment) (args : List Node) : Outcome :=
  if args.length > 1 then
    .ok (.ErrorNode (.message ("expected 1 argument, got " ++ toString args.length)), env)
  else
    match args with
    | [] => .error .indexOutOfRange
    | .ExpressionNode .QExpression nodes :: _ =>
      match nodes with
      | [] => .ok (.ErrorNode (.message "cannot take tail of empty list"), env)
      | _ :: others => .ok (.ExpressionNode .QExpression others, env)
    | node :: _ => .ok (.ErrorNode (.IncorrectType "Q-Expression" (TypeString node)), env)

/-- The builtin `Eval`.  The methods `ExpressionNode.EvalAsSExpr` and
`Node.Evaluate` of the environment-based interpreter are declared outside the
embedded files and are parameters. -/
def Eval (EvalAsSExpr : ExprType → List Node → Environment → Outcome)
    (Evaluate : Node → Environment → Outcome)
    (env : Environment) (args : List Node) : Outcome :=
  if args.length > 1 then
    .ok (.ErrorNode (.message ("expected 1 argument, got " ++ toString args.length)), env)
  else
    match args with
    | [] => .error .indexOutOfRange
    | .ExpressionNode type nodes :: _ => EvalAsSExpr type nodes env
    | node :: _ => Evaluate node env

/-- The loop of `Join`: `nodes` is the slice built so far. -/
def joinLoop (nodes : List Node) : List Node → Node
  | [] => .ExpressionNode .QExpression nodes
  | .ExpressionNode .QExpression elems :: rest => joinLoop (nodes ++ elems) rest
  | n :: _ => .ErrorNode (.IncorrectType "Q-Expression" (TypeString n))

/-- The builtin `Join`. -/
def Join (env : Environment) (args : List Node) : Outcome :=
  .ok (joinLoop TypeString [] args, env)

/-- The first loop of `Def`: the first element of `expr.Nodes` that is not an
`IdentifierNode`, if there is one. -/
def defCheck : List Node → Option Node
  | [] => none
  | .IdentifierNode _ :: rest => defCheck rest
  | node :: _ => some node

/-- The second loop of `Def`, `for i := range args`, walking `expr.Nodes` and
`args` in step: `(*env)[expr.Nodes[i].(IdentifierNode)] = args[i]`. -/
def defBind (env : Environment) : List Node → List Node → Except Panic Environment
  | _, [] => .ok env
  | [], _ :: _ => .error .indexOutOfRange
  | .IdentifierNode name :: nodes, value :: args => defBind (env.set name value) nodes args
  | _ :: _, _ :: _ => .error .failedTypeAssertion

/-- The builtin `Def`. -/
def Def (env : Environment) (args : List Node) : Outcome :=
  match args with
  | [] => .error .indexOutOfRange
  | .ExpressionNode .QExpression nodes :: rest =>
    match defCheck nodes with
    | some node => .ok (.ErrorNode (.IncorrectType "Identifier" (TypeString node)), env)
    | none =>
      if rest.length ≠ nodes.length then
        .ok (.ErrorNode (.message ("expected " ++ toString (nodes.length + 1)
          ++ " arguments, got " ++ toString (rest.length + 1))), env)
      else
        match defBind env nodes rest with
        | .ok env' => .ok (.ExpressionNode .SExpression [], env')
        | .error p => .error p
  | node :: _ => .ok (.ErrorNode (.IncorrectType "Q-Expression" (TypeString node)), env)

end Builtins

/-- Whether a node is an `ErrorNode`. -/
def Node.isError : Node → Bool
  | .ErrorNode _ => true
  | _ => false

/-- Whether a node is an `IdentifierNode`. -/
def Node.isIdentifier : Node → Bool
  | .IdentifierNode _ => true
  | _ => false

/-- Whether a node is a `NumberNode`. -/
def Node.isNumber : Node → Bool
  | .NumberNode _ => true
  | _ => false

/-- Whether a node is an `ExpressionNode` of type `QExpression`. -/
def Node.isQExpression : Node → Bool
  | .ExpressionNode .QExpression _ => true
  | _ => false

/-- A Q-expression with the given elements. -/
abbrev qexpr (nodes : List Node) : Node := .ExpressionNode .QExpression nodes

/-- The empty S-expression `ExpressionNode{Type: SExpression}`, the unit value. -/
abbrev unit : Node := .ExpressionNode .SExpression []

/-- A concrete `TypeString`, for stating facts about concrete calls. -/
def exampleTypeString : Node → String
  | .NumberNode _ => "Number"
  | .IdentifierNode _ => "Identifier"
  | .ExpressionNode .SExpression _ => "S-Expression"
  | .ExpressionNode .QExpression _ => "Q-Expression"
  | .ErrorNode _ => "Error"

end Builtin

namespace Parse

/-- The nodes of `parse.go`: `ExpressionNode{Operation, Nodes}` and `ValueNode{Value}`. -/
inductive Node where
  | ExpressionNode (Operation : String) (Nodes : List Node)
  | ValueNode (Value : Int)

/-- The Go result pair `(int, error)`; a `nil` error is `none`. -/
abbrev EvalResult : Type := Except Panic (Int × Option String)

mutual
/-- The method `Evaluate` of `ExpressionNode` and of `ValueNode`. -/
def Node.Evaluate : Node → EvalResult
  | .ValueNode v => .ok (v, none)
  | .ExpressionNode op nodes =>
    if op = "+" then
      if nodes.length < 2 then .ok (0, some "not enough arguments for addition operation")
      else repeatOperation nodes (fun x y => wrapInt (x + y))
    else if op = "-" then
      if nodes.length < 2 then .ok (0, some "not enough arguments for subtraction operation")
      else repeatOperation nodes (fun x y => wrapInt (x - y))
    else if op = "*" then
      if nodes.length < 2 then .ok (0, some "not enough arguments for multiplication operation")
      else repeatOperation nodes (fun x y => wrapInt (x * y))
    else if op = "/" then
      match nodes with
      | [a, b] =>
        match a.Evaluate with
        | .error p => .error p
        | .ok (_, some _) => .ok (0, none)
        | .ok (x, none) =>
          match b.Evaluate with
          | .error p => .error p
          | .ok (_, some _) => .ok (0, none)
          | .ok (y, none) =>
            if y = 0 then .ok (0, some "division by zero")
            else .ok (wrapInt (Int.tdiv x y), none)
      | _ => .ok (0, some "incorrect number of arguments for division operation")
    else .ok (0, some ("unknown operation " ++ op))
/-- The method `repeatOperation`, on the `Nodes` of its receiver. -/
def repeatOperation : List Node → (Int → Int → Int) → EvalResult
  | [], _ => .error .indexOutOfRange
  | first :: rest, op =>
    match first.Evaluate with
    | .error p => .error p
    | .ok (_, some err) => .ok (0, some err)
    | .ok (ret, none) => repeatLoop rest op ret
/-- The loop of `repeatOperation` over `e.Nodes[1:]`. -/
def repeatLoop : List Node → (Int → Int → Int) → Int → EvalResult
  | [], _, ret => .ok (ret, none)
  | node :: rest, op, ret =>
    match node.Evaluate with
    | .error p => .error p
    | .ok (_, some err) => .ok (0, some err)
    | .ok (val, none) => repeatLoop rest op (op ret val)
end

end Parse

namespace Parse

/-- The token kinds `Whitespace`, `Identifier`, `Number`, `Open`, `Close`. -/
inductive TokenType where
  | Whitespace
  | Identifier
  | Number
  | Open
  | Close
  deriving DecidableEq, Repr

/-- Modelled from the spec: the lexer's `Token`, a kind and a text (the fields
`Type` and `Value` that `parse.go` reads); its declaration is not among the
source files. -/
structure Token where
  type : TokenType
  Value : String
  deriving DecidableEq, Repr

/-- The parse errors `UnexpectedToken(token)` and `UnexpectedEOI{}`. -/
inductive ParseError where
  | UnexpectedToken (token : Token)
  | UnexpectedEOI
  deriving DecidableEq, Repr

/-- The function `trimWhitespace(input *[]Token) bool`: the slice after the
call, and the returned flag.  At most one token is removed. -/
def trimWhitespace (input : List Token) : List Token × Bool :=
  match input with
  | [] => ([], false)
  | first :: rest =>
    if first.type = .Whitespace then (rest, true) else (first :: rest, false)

/-- The loop of `findMatchingClose`: `depth` is the counter, `i` the index of the
head of the remaining tokens.  The counter changes by one per token, so it stays
within the length of the slice and never overflows. -/
def findMatchingCloseLoop (depth : Int) (i : Nat) : List Token → Int
  | [] => -1
  | token :: rest =>
    match token.type with
    | .Open => findMatchingCloseLoop (depth + 1) (i + 1) rest
    | .Close =>
      if depth - 1 = 0 then (i : Int) else findMatchingCloseLoop (depth - 1) (i + 1) rest
    | _ => findMatchingCloseLoop depth (i + 1) rest

/-- The function `findMatchingClose`. -/
def findMatchingClose (input : List Token) : Int :=
  findMatchingCloseLoop 0 0 input

/-- The digit loop of Go's `strconv.Atoi`: `n = n*10 + int(ch - '0')`, failing on
a character that is not a decimal digit. -/
def atoiLoop (n : Nat) : List Char → Option Nat
  | [] => some n
  | ch :: rest =>
    if ch.isDigit then atoiLoop (n * 10 + (ch.toNat - '0'.toNat)) rest else none

/-- The value that `strconv.Atoi` returns next to a range error: the nearest
`int`. -/
def clampInt (x : Int) : Int :=
  if x < -(2 ^ 63) then -(2 ^ 63) else if 2 ^ 63 - 1 < x then 2 ^ 63 - 1 else x

/-- The value returned by Go's `strconv.Atoi` (its error is discarded by the
caller, `value, _ := strconv.Atoi(...)`): an optional sign followed by one or
more decimal digits gives the number, clamped to the range of `int`; any other
text gives `0`. -/
def Atoi (s : String) : Int :=
  match s.data with
  | [] => 0
  | ch :: rest =>
    if ch = '-' then
      match rest with
      | [] => 0
      | _ => match atoiLoop 0 rest with
        | some n => clampInt (-(n : Int))
        | none => 0
    else if ch = '+' then
      match rest with
      | [] => 0
      | _ => match atoiLoop 0 rest with
        | some n => clampInt (n : Int)
        | none => 0
    else
      match atoiLoop 0 (ch :: rest) with
      | some n => clampInt (n : Int)
      | none => 0

/-- The Go result pair `(ExpressionNode, error)`; a `nil` error is `none`, and
the node returned next to an error is the zero value `ExpressionNode{}`. -/
abbrev ParseResult : Type := Except Panic (Node × Option ParseError)

mutual
/-- The function `ParseExpression`. -/
def ParseExpression (input : List Token) : ParseResult :=
  match _h : (trimWhitespace input).1 with
  | [] => .ok (.ExpressionNode "" [], some .UnexpectedEOI)
  | first :: rest =>
    if first.type ≠ .Identifier then
      .ok (.ExpressionNode "" [], some (.UnexpectedToken first))
    else
      parseLoop first.Value [] rest
termination_by input.length
decreasing_by
  have hlen : ((trimWhitespace input).1).length ≤ input.length := by
    unfold trimWhitespace
    split
    · simp
    · split <;> simp
  rw [_h] at hlen
  simp only [List.length_cons] at hlen
  omega
/-- The loop `for trimWhitespace(&input) { ... }` of `ParseExpression`:
`Operation` and `Nodes` are the fields of `ret` so far.  With `input` equal to
`first :: rest`, the slice `input[1:closeIndex]` is `rest.take (closeIndex - 1)`
(it panics when `closeIndex < 1`) and `input[closeIndex+1:]` is
`rest.drop closeIndex`. -/
def parseLoop (Operation : String) (Nodes : List Node) (input : List Token) : ParseResult :=
  match _h : trimWhitespace input with
  | (_, false) => .ok (.ExpressionNode Operation Nodes, none)
  | ([], true) => .ok (.ExpressionNode Operation Nodes, none)
  | (first :: rest, true) =>
    match first.type with
    | .Number => parseLoop Operation (Nodes ++ [.ValueNode (Atoi first.Value)]) rest
    | .Open =>
      let closeIndex := findMatchingClose (first :: rest)
      if closeIndex = -1 then
        .ok (.ExpressionNode "" [], some .UnexpectedEOI)
      else if closeIndex < 1 then
        .error .indexOutOfRange
      else
        match ParseExpression (rest.take (closeIndex.toNat - 1)) with
        | .error p => .error p
        | .ok (_, some err) => .ok (.ExpressionNode "" [], some err)
        | .ok (nestedExpression, none) =>
          parseLoop Operation (Nodes ++ [nestedExpression]) (rest.drop closeIndex.toNat)
    | _ => .ok (.ExpressionNode "" [], some (.UnexpectedToken first))
termination_by input.length
decreasing_by
  all_goals
    have hlen : ((trimWhitespace input).1).length < input.length := by
      have h2 : (trimWhitespace input).2 = true := by rw [_h]
      revert h2
      unfold trimWhitespace
      split
      · simp
      · split <;> simp
    rw [_h] at hlen
    simp only [List.length_cons, List.length_take, List.length_drop] at hlen ⊢
    omega
end

/-! ### Notions used to state the properties of the parser -/

/-- The depth counter over a token list: the number of `Open` tokens minus the
number of `Close` tokens. -/
def depthOf : List Token → Int
  | [] => 0
  | token :: rest =>
    (match token.type with
      | .Open => 1
      | .Close => -1
      | _ => 0) + depthOf rest

/-- A token list is balanced when its depth is zero and no prefix of it closes
more parentheses than it has opened. -/
def balanced (tokens : List Token) : Prop :=
  depthOf tokens = 0 ∧ ∀ k, k ≤ tokens.length → 0 ≤ depthOf (tokens.take k)

instance (tokens : List Token) : Decidable (balanced tokens) := by
  unfold balanced; infer_instance

/-- The decimal text of an integer. -/
def decimalText (v : Int) : String := toString v

section Rendering

-- The texts carried by the `Whitespace`, `Open` and `Close` tokens of a
-- rendering; the parser never reads them.
variable (ws lp rp : String)

mutual
/-- The canonical rendering of an operand: a `ValueNode` as a `Number` token
holding its decimal text, a nested expression as `Open`, its rendering, `Close`. -/
def renderOperand : Node → List Token
  | .ValueNode v => [⟨.Number, decimalText v⟩]
  | .ExpressionNode op nodes =>
    ⟨.Open, lp⟩ :: ⟨.Identifier, op⟩ :: (renderOperands nodes ++ [⟨.Close, rp⟩])
/-- The canonical rendering of a list of operands: each operand preceded by
exactly one `Whitespace` token. -/
def renderOperands : List Node → List Token
  | [] => []
  | node :: rest => ⟨.Whitespace, ws⟩ :: (renderOperand node ++ renderOperands rest)
end

/-- The canonical rendering of the expression with the given operation and
operands: the operation as an `Identifier` token, then the operands. -/
def render (op : String) (nodes : List Node) : List Token :=
  ⟨.Identifier, op⟩ :: renderOperands ws lp rp nodes

end Rendering

mutual
/-- Whether every `ValueNode` of a tree holds a value of Go's `int`. -/
def Node.valuesInRange : Node → Bool
  | .ValueNode v => decide (inIntRange v)
  | .ExpressionNode _ nodes => allValuesInRange nodes
/-- Whether every `ValueNode` of a list of trees holds a value of Go's `int`. -/
def allValuesInRange : List Node → Bool
  | [] => true
  | node :: rest => node.valuesInRange && allValuesInRange rest
end

end Parse


/-! ## Go `int` arithmetic -/

theorem wrapInt_modEq (x : Int) : wrapInt x ≡ x [ZMOD 2 ^ 64] := by
  unfold wrapInt
  have h : (x + 2 ^ 63) % 2 ^ 64 ≡ x + 2 ^ 63 [ZMOD 2 ^ 64] := Int.mod_modEq _ _
  have h2 := h.sub_right (2 ^ 63)
  rwa [add_sub_cancel_right] at h2

theorem wrapInt_congr {x y : Int} (h : x ≡ y [ZMOD 2 ^ 64]) : wrapInt x = wrapInt y := by
  unfold wrapInt
  have h2 : (x + 2 ^ 63) % 2 ^ 64 = (y + 2 ^ 63) % 2 ^ 64 := h.add_right (2 ^ 63)
  rw [h2]

theorem wrapInt_of_inIntRange {x : Int} (h : inIntRange x) : wrapInt x = x := by
  unfold inIntRange at h
  unfold wrapInt
  rw [Int.emod_eq_of_lt (by omega) (by omega)]
  omega

theorem wrapInt_inIntRange (x : Int) : inIntRange (wrapInt x) := by
  unfold inIntRange wrapInt
  have h1 := Int.emod_nonneg (x + 2 ^ 63) (show (2 : Int) ^ 64 ≠ 0 by norm_num)
  have h2 := Int.emod_lt_of_pos (x + 2 ^ 63) (show (0 : Int) < 2 ^ 64 by norm_num)
  constructor <;> omega

theorem wrapInt_add_left (a b : Int) : wrapInt (wrapInt a + b) = wrapInt (a + b) :=
  wrapInt_congr ((wrapInt_modEq a).add_right b)

theorem wrapInt_sub_left (a b : Int) : wrapInt (wrapInt a - b) = wrapInt (a - b) :=
  wrapInt_congr ((wrapInt_modEq a).sub_right b)

theorem wrapInt_mul_left (a b : Int) : wrapInt (wrapInt a * b) = wrapInt (a * b) :=
  wrapInt_congr ((wrapInt_modEq a).mul_right b)

namespace Builtin

/-! ## The loops of the arithmetic builtins on lists of numbers -/

theorem addLoop_numbers (ts : Node → String) (nums : List Int) (sum : Int) :
    addLoop ts sum (nums.map .NumberNode)
      = .NumberNode (if nums = [] then sum else wrapInt (sum + nums.sum)) := by
  induction nums generalizing sum with
  | nil => simp [addLoop]
  | cons n rest ih =>
    simp only [List.map_cons, addLoop, ih, List.sum_cons]
    by_cases hr : rest = []
    · subst hr; simp
    · simp [hr, wrapInt_add_left, add_assoc]

theorem addLoop_stops (ts : Node → String) (nums : List Int) (node : Node) (rest : List Node)
    (hnode : node.isNumber = false) (sum : Int) :
    addLoop ts sum (nums.map .NumberNode ++ node :: rest)
      = .ErrorNode (.IncorrectType "Number" (ts node)) := by
  induction nums generalizing sum with
  | nil => cases node <;> simp_all [addLoop, Node.isNumber]
  | cons n more ih => exact ih _

theorem subLoop_numbers (ts : Node → String) (nums : List Int) (sum : Int) :
    subLoop ts sum (nums.map .NumberNode)
      = .NumberNode (if nums = [] then sum else wrapInt (sum - nums.sum)) := by
  induction nums generalizing sum with
  | nil => simp [subLoop]
  | cons n rest ih =>
    simp only [List.map_cons, subLoop, ih, List.sum_cons]
    by_cases hr : rest = []
    · subst hr; simp
    · simp [hr, wrapInt_sub_left, sub_sub]

theorem subLoop_stops (ts : Node → String) (nums : List Int) (node : Node) (rest : List Node)
    (hnode : node.isNumber = false) (sum : Int) :
    subLoop ts sum (nums.map .NumberNode ++ node :: rest)
      = .ErrorNode (.IncorrectType "Number" (ts node)) := by
  induction nums generalizing sum with
  | nil => cases node <;> simp_all [subLoop, Node.isNumber]
  | cons n more ih => exact ih _

theorem mulLoop_numbers (ts : Node → String) (nums : List Int) (sum : Int) :
    mulLoop ts sum (nums.map .NumberNode)
      = .NumberNode (if nums = [] then sum else wrapInt (sum * nums.prod)) := by
  induction nums generalizing sum with
  | nil => simp [mulLoop]
  | cons n rest ih =>
    simp only [List.map_cons, mulLoop, ih, List.prod_cons]
    by_cases hr : rest = []
    · subst hr; simp
    · simp [hr, wrapInt_mul_left, mul_assoc]

end Builtin

namespace Builtin

/-! ## Arity -/

/-- C1 (as stated, refuted): `+` and `join` have arity "at least 1", yet on the
empty argument list `Add` returns `NumberNode(0)` and `Join` returns the empty
Q-expression — neither is an `ErrorNode` — and `Mul` on the empty argument list
does not return at all: indexing `args[0]` panics. -/
theorem arity_violation_counterexample :
    Add exampleTypeString Environment.empty [] = .ok (.NumberNode 0, Environment.empty)
    ∧ (Node.NumberNode 0).isError = false
    ∧ Join exampleTypeString Environment.empty [] = .ok (qexpr [], Environment.empty)
    ∧ (qexpr []).isError = false
    ∧ Mul exampleTypeString Environment.empty [] = .error .indexOutOfRange :=
  ⟨rfl, rfl, rfl, rfl, rfl⟩

/-- C1 (amended): for `head`, `tail` and `eval`, every argument list with more
than one argument yields the `ErrorNode` with the arity message
"expected 1 argument, got n", without a panic and leaving the environment as it
was; `+` and `join` accept the empty argument list without a panic and return
`NumberNode(0)` and the empty Q-expression. -/
theorem arity_errors (TypeString : Node → String)
    (EvalAsSExpr : ExprType → List Node → Environment → Outcome)
    (Evaluate : Node → Environment → Outcome)
    (env : Environment) (args : List Node) (h : args.length > 1) :
    Head TypeString env args
        = .ok (.ErrorNode (.message ("expected 1 argument, got " ++ toString args.length)), env)
    ∧ Tail TypeString env args
        = .ok (.ErrorNode (.message ("expected 1 argument, got " ++ toString args.length)), env)
    ∧ Eval EvalAsSExpr Evaluate env args
        = .ok (.ErrorNode (.message ("expected 1 argument, got " ++ toString args.length)), env)
    ∧ Add TypeString env [] = .ok (.NumberNode 0, env)
    ∧ Join TypeString env [] = .ok (qexpr [], env) := by
  refine ⟨?_, ?_, ?_, rfl, rfl⟩
  · simp [Head, h]
  · simp [Tail, h]
  · simp [Eval, h]

/-- C1 (amended), at the two-element argument list `1 2`. -/
theorem arity_errors_witness :
    Head exampleTypeString Environment.empty [.NumberNode 1, .NumberNode 2]
        = .ok (.ErrorNode (.message "expected 1 argument, got 2"), Environment.empty)
    ∧ Tail exampleTypeString Environment.empty [.NumberNode 1, .NumberNode 2]
        = .ok (.ErrorNode (.message "expected 1 argument, got 2"), Environment.empty)
    ∧ Eval (fun _ _ e => .ok (unit, e)) (fun n e => .ok (n, e)) Environment.empty
          [.NumberNode 1, .NumberNode 2]
        = .ok (.ErrorNode (.message "expected 1 argument, got 2"), Environment.empty) :=
  have h := arity_errors exampleTypeString (fun _ _ e => .ok (unit, e)) (fun n e => .ok (n, e))
    Environment.empty [.NumberNode 1, .NumberNode 2] (by decide)
  ⟨h.1, h.2.1, h.2.2.1⟩

end Builtin

namespace Builtin

/-! ## `Add` -/

/-- C2: on a non-empty argument list, `Add` returns `NumberNode` of the sum of
all arguments (in Go's `int` arithmetic, which is the mathematical sum whenever
that sum is representable) when every argument is a `NumberNode`; otherwise it
returns the `ErrorNode` holding `IncorrectType{"Number", t}` where `t` is the
type name of the first argument that is not a number.  The call never panics
and returns the environment it was given; the arguments are values of the
embedding and are not written to. -/
theorem Add_sum_or_type_error (TypeString : Node → String) (env : Environment)
    (args : List Node) (_hne : args ≠ []) :
    (∀ nums : List Int, args = nums.map .NumberNode →
        Add TypeString env args = .ok (.NumberNode (wrapInt nums.sum), env)
        ∧ (inIntRange nums.sum → Add TypeString env args = .ok (.NumberNode nums.sum, env)))
    ∧ (∀ (nums : List Int) (node : Node) (rest : List Node),
        args = nums.map .NumberNode ++ node :: rest → node.isNumber = false →
        Add TypeString env args
          = .ok (.ErrorNode (.IncorrectType "Number" (TypeString node)), env)) := by
  refine ⟨?_, ?_⟩
  · intro nums hargs
    have key : Add TypeString env args = .ok (.NumberNode (wrapInt nums.sum), env) := by
      subst hargs
      simp only [Add, addLoop_numbers]
      by_cases hn : nums = []
      · subst hn; rfl
      · simp [hn]
    refine ⟨key, fun hr => ?_⟩
    rw [key, wrapInt_of_inIntRange hr]
  · intro nums node rest hargs hnode
    subst hargs
    simp only [Add, addLoop_stops TypeString nums node rest hnode]

/-- C2 at `1 2 3` and at `1 x 2 {}`. -/
theorem Add_sum_or_type_error_witness :
    Add exampleTypeString Environment.empty [.NumberNode 1, .NumberNode 2, .NumberNode 3]
        = .ok (.NumberNode 6, Environment.empty)
    ∧ Add exampleTypeString Environment.empty
          [.NumberNode 1, .IdentifierNode "x", .NumberNode 2, qexpr []]
        = .ok (.ErrorNode (.IncorrectType "Number" "Identifier"), Environment.empty) :=
  ⟨((Add_sum_or_type_error exampleTypeString Environment.empty
        [.NumberNode 1, .NumberNode 2, .NumberNode 3] (by simp)).1 [1, 2, 3] rfl).2
      (by decide),
   (Add_sum_or_type_error exampleTypeString Environment.empty
        [.NumberNode 1, .IdentifierNode "x", .NumberNode 2, qexpr []] (by simp)).2
      [1] (.IdentifierNode "x") [.NumberNode 2, qexpr []] rfl rfl⟩

/-! ## Order of the arguments -/

theorem Add_numbers (ts : Node → String) (env : Environment) (nums : List Int) :
    Add ts env (nums.map .NumberNode) = .ok (.NumberNode (wrapInt nums.sum), env) := by
  simp only [Add, addLoop_numbers]
  by_cases hn : nums = []
  · subst hn; rfl
  · simp [hn]

theorem Mul_numbers (ts : Node → String) (env : Environment) (a : Int) (rest : List Int) :
    Mul ts env ((a :: rest).map .NumberNode)
      = .ok (.NumberNode (if rest = [] then a else wrapInt (a :: rest).prod), env) := by
  simp [Mul, mulLoop_numbers]

/-- C3: on a non-empty list of numbers, `Add` and `Mul` return the same result
for the list and for every permutation of it, whereas `Sub` and `Div` do not:
there are number lists and permutations of them on which the results differ. -/
theorem Add_Mul_order_insensitive (TypeString : Node → String) (env : Environment)
    (xs ys : List Int) (hne : xs ≠ []) (hperm : xs.Perm ys) :
    Add TypeString env (xs.map .NumberNode) = Add TypeString env (ys.map .NumberNode)
    ∧ Mul TypeString env (xs.map .NumberNode) = Mul TypeString env (ys.map .NumberNode)
    ∧ (∃ as bs : List Int, as.Perm bs ∧
        Sub TypeString env (as.map .NumberNode) ≠ Sub TypeString env (bs.map .NumberNode))
    ∧ (∃ as bs : List Int, as.Perm bs ∧
        Div TypeString env (as.map .NumberNode) ≠ Div TypeString env (bs.map .NumberNode)) := by
  refine ⟨?_, ?_, ?_, ?_⟩
  · rw [Add_numbers, Add_numbers, hperm.sum_eq]
  · obtain ⟨a, rest, rfl⟩ := List.exists_cons_of_ne_nil hne
    have hlen := hperm.length_eq
    obtain ⟨b, more, rfl⟩ : ∃ b more, ys = b :: more := by
      cases ys with
      | nil => simp at hlen
      | cons b more => exact ⟨b, more, rfl⟩
    rw [Mul_numbers, Mul_numbers]
    by_cases hr : rest = []
    · subst hr
      have hm : more = [] := by
        simpa using hlen.symm
      subst hm
      have := hperm.eq_singleton
      simp_all
    · have hm : more ≠ [] := by
        intro hm
        subst hm
        apply hr
        simpa using hlen
      simp only [hr, hm, if_false, hperm.prod_eq]
  · refine ⟨[1, 2], [2, 1], List.Perm.swap 2 1 [], ?_⟩
    simp [Sub, subLoop, wrapInt]
  · refine ⟨[4, 2], [2, 4], List.Perm.swap 2 4 [], ?_⟩
    simp [Div, divLoop, wrapInt]
    decide

/-- C3 at the lists `2 3 4` and `4 2 3`. -/
theorem Add_Mul_order_insensitive_witness :
    Add exampleTypeString Environment.empty [.NumberNode 2, .NumberNode 3, .NumberNode 4]
      = Add exampleTypeString Environment.empty [.NumberNode 4, .NumberNode 2, .NumberNode 3]
    ∧ Mul exampleTypeString Environment.empty [.NumberNode 2, .NumberNode 3, .NumberNode 4]
      = Mul exampleTypeString Environment.empty [.NumberNode 4, .NumberNode 2, .NumberNode 3] :=
  have h := Add_Mul_order_insensitive exampleTypeString Environment.empty [2, 3, 4] [4, 2, 3]
    (by simp) (by decide)
  ⟨h.1, h.2.1⟩

end Builtin

namespace Builtin

/-! ## `Sub` -/

theorem foldl_sub_eq (rest : List Int) (a : Int) :
    rest.foldl (fun acc x => acc - x) a = a - rest.sum := by
  induction rest generalizing a with
  | nil => simp
  | cons x more ih => simp only [List.foldl_cons, ih, List.sum_cons]; ring

/-- C4: on numbers, `Sub` with the single argument `a` returns `NumberNode(-a)`;
with two or more arguments `a0 a1 ... an` it returns
`NumberNode(((a0 - a1) - a2) ... - an)`, the left fold of subtraction from the
first argument (both in Go's `int` arithmetic: the mathematical value, reduced
to 64 bits, hence the value itself whenever it is representable); and if some
argument is not a `NumberNode`, `Sub` returns the `IncorrectType` error that
expects "Number", naming the type of the first such argument. -/
theorem Sub_negation_or_left_fold (TypeString : Node → String) (env : Environment) :
    (∀ a : Int,
        Sub TypeString env [.NumberNode a] = .ok (.NumberNode (wrapInt (-a)), env)
        ∧ (inIntRange (-a) → Sub TypeString env [.NumberNode a] = .ok (.NumberNode (-a), env)))
    ∧ (∀ (a0 : Int) (rest : List Int), rest ≠ [] →
        Sub TypeString env (.NumberNode a0 :: rest.map .NumberNode)
          = .ok (.NumberNode (wrapInt (rest.foldl (fun acc x => acc - x) a0)), env)
        ∧ (inIntRange (rest.foldl (fun acc x => acc - x) a0) →
            Sub TypeString env (.NumberNode a0 :: rest.map .NumberNode)
              = .ok (.NumberNode (rest.foldl (fun acc x => acc - x) a0), env)))
    ∧ (∀ (nums : List Int) (node : Node) (rest : List Node), node.isNumber = false →
        Sub TypeString env (nums.map .NumberNode ++ node :: rest)
          = .ok (.ErrorNode (.IncorrectType "Number" (TypeString node)), env)) := by
  refine ⟨?_, ?_, ?_⟩
  · intro a
    have key : Sub TypeString env [.NumberNode a] = .ok (.NumberNode (wrapInt (-a)), env) := rfl
    exact ⟨key, fun hr => by rw [key, wrapInt_of_inIntRange hr]⟩
  · intro a0 rest hrest
    have key : Sub TypeString env (.NumberNode a0 :: rest.map .NumberNode)
        = .ok (.NumberNode (wrapInt (rest.foldl (fun acc x => acc - x) a0)), env) := by
      have hlen : ¬ (rest.length + 1 = 1) := by
        intro h
        exact hrest (List.length_eq_zero.mp (by omega))
      simp only [Sub, List.length_cons, List.length_map, hlen, if_false, subLoop_numbers,
        hrest, foldl_sub_eq]
    exact ⟨key, fun hr => by rw [key, wrapInt_of_inIntRange hr]⟩
  · intro nums node rest hnode
    cases nums with
    | nil =>
      cases node <;> simp_all [Sub, Node.isNumber]
    | cons n more =>
      have hlen : ¬ ((more.map Node.NumberNode ++ node :: rest).length + 1 = 1) := by
        simp
      simp only [List.map_cons, List.cons_append, Sub, List.length_cons, hlen, if_false,
        subLoop_stops TypeString more node rest hnode]

/-- C4 at `5`, at `10 3 2` and at `10 {} 2`. -/
theorem Sub_negation_or_left_fold_witness :
    Sub exampleTypeString Environment.empty [.NumberNode 5]
        = .ok (.NumberNode (-5), Environment.empty)
    ∧ Sub exampleTypeString Environment.empty [.NumberNode 10, .NumberNode 3, .NumberNode 2]
        = .ok (.NumberNode 5, Environment.empty)
    ∧ Sub exampleTypeString Environment.empty [.NumberNode 10, qexpr [], .NumberNode 2]
        = .ok (.ErrorNode (.IncorrectType "Number" "Q-Expression"), Environment.empty) :=
  have h := Sub_negation_or_left_fold exampleTypeString Environment.empty
  ⟨(h.1 5).2 (by decide), (h.2.1 10 [3, 2] (by simp)).2 (by decide),
    h.2.2 [10] (qexpr []) [.NumberNode 2] rfl⟩

/-! ## `Div` -/

theorem divLoop_numbers (ts : Node → String) (rest : List Int) (hnz : ∀ d ∈ rest, d ≠ 0)
    (sum : Int) :
    divLoop ts sum (rest.map .NumberNode)
      = .ok (.NumberNode (rest.foldl (fun acc d => wrapInt (Int.tdiv acc d)) sum)) := by
  induction rest generalizing sum with
  | nil => rfl
  | cons d more ih =>
    have hd : d ≠ 0 := hnz d (List.mem_cons_self _ _)
    have hmore : ∀ e ∈ more, e ≠ 0 := fun e he => hnz e (List.mem_cons_of_mem _ he)
    simp only [List.map_cons, divLoop, hd, if_false, ih hmore, List.foldl_cons]

theorem foldl_tdiv_exact (rest : List Int) (sum : Int) (hs : sum.natAbs < 2 ^ 63) :
    rest.foldl (fun acc d => wrapInt (Int.tdiv acc d)) sum = rest.foldl Int.tdiv sum := by
  induction rest generalizing sum with
  | nil => rfl
  | cons d more ih =>
    have hq : (Int.tdiv sum d).natAbs < 2 ^ 63 := by
      rw [Int.natAbs_tdiv]
      exact lt_of_le_of_lt (Nat.div_le_self _ _) hs
    have hr : inIntRange (Int.tdiv sum d) := by
      unfold inIntRange
      omega
    simp only [List.foldl_cons, wrapInt_of_inIntRange hr]
    exact ih _ hq

/-- C5: on a non-empty list of numbers `a0 a1 ... an` whose divisors `a1..an`
are all non-zero, `Div` returns `NumberNode(((a0 / a1) / a2) ... / an)`, the left
fold from the first argument of Go's integer division, which truncates toward
zero (`Int.tdiv`; its only unrepresentable quotient, that of the least `int` by
`-1`, is reduced to 64 bits as Go does, so for `a0` strictly between `-2^63` and
`2^63` the result is the plain left fold of truncating division); with a single
argument it returns that argument unchanged. -/
theorem Div_left_fold (TypeString : Node → String) (env : Environment) :
    (∀ a : Int, Div TypeString env [.NumberNode a] = .ok (.NumberNode a, env))
    ∧ (∀ (a0 : Int) (rest : List Int), (∀ d ∈ rest, d ≠ 0) →
        Div TypeString env (.NumberNode a0 :: rest.map .NumberNode)
          = .ok (.NumberNode (rest.foldl (fun acc d => wrapInt (Int.tdiv acc d)) a0), env)
        ∧ (-(2 ^ 63) < a0 → a0 < 2 ^ 63 →
            Div TypeString env (.NumberNode a0 :: rest.map .NumberNode)
              = .ok (.NumberNode (rest.foldl Int.tdiv a0), env))) := by
  refine ⟨fun a => rfl, ?_⟩
  intro a0 rest hnz
  have key : Div TypeString env (.NumberNode a0 :: rest.map .NumberNode)
      = .ok (.NumberNode (rest.foldl (fun acc d => wrapInt (Int.tdiv acc d)) a0), env) := by
    simp only [Div, divLoop_numbers TypeString rest hnz]
  refine ⟨key, fun hlo hhi => ?_⟩
  rw [key, foldl_tdiv_exact rest a0 (by omega)]

/-- C5 at `-7 2` (the quotient is `-3`: truncation toward zero) and at `100 5 -3`. -/
theorem Div_left_fold_witness :
    Div exampleTypeString Environment.empty [.NumberNode (-7), .NumberNode 2]
        = .ok (.NumberNode (-3), Environment.empty)
    ∧ Div exampleTypeString Environment.empty [.NumberNode 100, .NumberNode 5, .NumberNode (-3)]
        = .ok (.NumberNode (-6), Environment.empty) :=
  have h := (Div_left_fold exampleTypeString Environment.empty).2
  ⟨(h (-7) [2] (by decide)).2 (by decide) (by decide),
    (h 100 [5, -3] (by decide)).2 (by decide) (by decide)⟩

end Builtin

/-! ## Division by zero in the two evaluators -/

/-- C6: the two division implementations disagree on a zero divisor: for every
integer `x`, the minimal evaluator's expression `/` with the operands `x` and `0`
returns the error "division by zero", while the builtin `Div` on
`[NumberNode(x), NumberNode(0)]` has no zero check and produces no `Node`: the
integer division panics. -/
theorem division_by_zero_disagreement (TypeString : Builtin.Node → String)
    (env : Builtin.Environment) (x : Int) :
    Parse.Node.Evaluate (.ExpressionNode "/" [.ValueNode x, .ValueNode 0])
        = .ok (0, some "division by zero")
    ∧ Builtin.Div TypeString env [.NumberNode x, .NumberNode 0] = .error .divideByZero := by
  constructor
  · simp [Parse.Node.Evaluate]
  · simp [Builtin.Div, Builtin.divLoop]

namespace Builtin

/-! ## `Head` and `Tail` -/

/-- C7: with a single argument that is a Q-expression `q`: if `q` has no
elements, `Head` returns the error "cannot take head of empty list" and `Tail`
the error "cannot take tail of empty list"; if `q` has the elements `x` followed
by `xs`, `Head` returns `x` itself and `Tail` returns the Q-expression of exactly
`xs`; a single argument that is not a Q-expression (a number, an S-expression,
...) yields the `IncorrectType` error expecting "Q-Expression". -/
theorem Head_Tail_single_argument (TypeString : Node → String) (env : Environment) :
    Head TypeString env [qexpr []]
        = .ok (.ErrorNode (.message "cannot take head of empty list"), env)
    ∧ Tail TypeString env [qexpr []]
        = .ok (.ErrorNode (.message "cannot take tail of empty list"), env)
    ∧ (∀ (x : Node) (xs : List Node),
        Head TypeString env [qexpr (x :: xs)] = .ok (x, env)
        ∧ Tail TypeString env [qexpr (x :: xs)] = .ok (qexpr xs, env))
    ∧ (∀ node : Node, node.isQExpression = false →
        Head TypeString env [node]
          = .ok (.ErrorNode (.IncorrectType "Q-Expression" (TypeString node)), env)
        ∧ Tail TypeString env [node]
          = .ok (.ErrorNode (.IncorrectType "Q-Expression" (TypeString node)), env)) := by
  refine ⟨rfl, rfl, fun x xs => ⟨rfl, rfl⟩, ?_⟩
  intro node hnode
  cases node with
  | ExpressionNode type nodes =>
    cases type with
    | SExpression => exact ⟨rfl, rfl⟩
    | QExpression => simp [Node.isQExpression] at hnode
  | NumberNode v => exact ⟨rfl, rfl⟩
  | IdentifierNode name => exact ⟨rfl, rfl⟩
  | ErrorNode err => exact ⟨rfl, rfl⟩

/-- C7 at the number `7` and at the S-expression `(1)`. -/
theorem Head_Tail_single_argument_witness :
    Head exampleTypeString Environment.empty [.NumberNode 7]
        = .ok (.ErrorNode (.IncorrectType "Q-Expression" "Number"), Environment.empty)
    ∧ Tail exampleTypeString Environment.empty [.ExpressionNode .SExpression [.NumberNode 1]]
        = .ok (.ErrorNode (.IncorrectType "Q-Expression" "S-Expression"), Environment.empty) :=
  have h := (Head_Tail_single_argument exampleTypeString Environment.empty).2.2.2
  ⟨(h (.NumberNode 7) rfl).1, (h (.ExpressionNode .SExpression [.NumberNode 1]) rfl).2⟩

/-! ## `Join` -/

theorem joinLoop_qexprs (ts : Node → String) (lists : List (List Node)) (nodes : List Node) :
    joinLoop ts nodes (lists.map qexpr) = qexpr (nodes ++ lists.flatten) := by
  induction lists generalizing nodes with
  | nil => simp [joinLoop]
  | cons l more ih => simp only [List.map_cons, joinLoop, ih, List.flatten_cons, List.append_assoc]

theorem joinLoop_stops (ts : Node → String) (lists : List (List Node)) (node : Node)
    (rest : List Node) (hnode : node.isQExpression = false) (nodes : List Node) :
    joinLoop ts nodes (lists.map qexpr ++ node :: rest)
      = .ErrorNode (.IncorrectType "Q-Expression" (ts node)) := by
  induction lists generalizing nodes with
  | nil =>
    cases node with
    | ExpressionNode type elems =>
      cases type with
      | SExpression => rfl
      | QExpression => simp [Node.isQExpression] at hnode
    | NumberNode v => rfl
    | IdentifierNode name => rfl
    | ErrorNode err => rfl
  | cons l more ih => exact ih _

/-- C8: on a non-empty argument list, `Join` returns the Q-expression whose
elements are the concatenation, in argument order, of the elements of all
arguments when every argument is a Q-expression; if some argument is not a
Q-expression, it returns the `IncorrectType` error that expects "Q-Expression"
and whose actual type is that of the first such argument. -/
theorem Join_concat_or_type_error (TypeString : Node → String) (env : Environment)
    (args : List Node) (_hne : args ≠ []) :
    (∀ lists : List (List Node), args = lists.map qexpr →
        Join TypeString env args = .ok (qexpr lists.flatten, env))
    ∧ (∀ (lists : List (List Node)) (node : Node) (rest : List Node),
        args = lists.map qexpr ++ node :: rest → node.isQExpression = false →
        Join TypeString env args
          = .ok (.ErrorNode (.IncorrectType "Q-Expression" (TypeString node)), env)) := by
  refine ⟨?_, ?_⟩
  · intro lists hargs
    subst hargs
    simp only [Join, joinLoop_qexprs, List.nil_append]
  · intro lists node rest hargs hnode
    subst hargs
    simp only [Join, joinLoop_stops TypeString lists node rest hnode]

/-- C8 at `join {1 2} {3}` and at `join {1} 2`. -/
theorem Join_concat_or_type_error_witness :
    Join exampleTypeString Environment.empty
        [qexpr [.NumberNode 1, .NumberNode 2], qexpr [.NumberNode 3]]
      = .ok (qexpr [.NumberNode 1, .NumberNode 2, .NumberNode 3], Environment.empty)
    ∧ Join exampleTypeString Environment.empty [qexpr [.NumberNode 1], .NumberNode 2]
      = .ok (.ErrorNode (.IncorrectType "Q-Expression" "Number"), Environment.empty) :=
  ⟨(Join_concat_or_type_error exampleTypeString Environment.empty
        [qexpr [.NumberNode 1, .NumberNode 2], qexpr [.NumberNode 3]] (by simp)).1
      [[.NumberNode 1, .NumberNode 2], [.NumberNode 3]] rfl,
   (Join_concat_or_type_error exampleTypeString Environment.empty
        [qexpr [.NumberNode 1], .NumberNode 2] (by simp)).2
      [[.NumberNode 1]] (.NumberNode 2) [] rfl rfl⟩

end Builtin

namespace Builtin

/-! ## `Def` -/

theorem defCheck_identifiers (ids : List String) :
    defCheck (ids.map .IdentifierNode) = none := by
  induction ids with
  | nil => rfl
  | cons a more ih => simpa [defCheck] using ih

theorem defCheck_some {nodes : List Node} {elem : Node} (h : defCheck nodes = some elem) :
    elem ∈ nodes ∧ elem.isIdentifier = false := by
  induction nodes with
  | nil => simp [defCheck] at h
  | cons n more ih =>
    cases n with
    | IdentifierNode name =>
      have := ih (by simpa [defCheck] using h)
      exact ⟨List.mem_cons_of_mem _ this.1, this.2⟩
    | NumberNode v => simp [defCheck] at h; subst h; exact ⟨List.mem_cons_self _ _, rfl⟩
    | ExpressionNode t ns => simp [defCheck] at h; subst h; exact ⟨List.mem_cons_self _ _, rfl⟩
    | ErrorNode e => simp [defCheck] at h; subst h; exact ⟨List.mem_cons_self _ _, rfl⟩

theorem defCheck_none {nodes : List Node} (h : defCheck nodes = none) :
    ∃ ids : List String, nodes = ids.map .IdentifierNode := by
  induction nodes with
  | nil => exact ⟨[], rfl⟩
  | cons n more ih =>
    cases n with
    | IdentifierNode name =>
      obtain ⟨ids, hids⟩ := ih (by simpa [defCheck] using h)
      exact ⟨name :: ids, by simp [hids]⟩
    | NumberNode v => simp [defCheck] at h
    | ExpressionNode t ns => simp [defCheck] at h
    | ErrorNode e => simp [defCheck] at h

theorem defBind_identifiers (ids : List String) (vals : List Node) (env : Environment)
    (hlen : vals.length = ids.length) :
    defBind env (ids.map .IdentifierNode) vals
      = .ok ((ids.zip vals).foldl (fun e p => e.set p.1 p.2) env) := by
  induction ids generalizing env vals with
  | nil =>
    cases vals with
    | nil => rfl
    | cons v more => simp at hlen
  | cons a more ih =>
    cases vals with
    | nil => simp at hlen
    | cons v vs =>
      simp only [List.map_cons, defBind, List.zip_cons_cons, List.foldl_cons]
      exact ih vs _ (by simpa using hlen)

theorem foldl_set_other (pairs : List (String × Node)) (env : Environment) (name : String)
    (h : ∀ p ∈ pairs, p.1 ≠ name) :
    (pairs.foldl (fun e p => e.set p.1 p.2) env) name = env name := by
  induction pairs generalizing env with
  | nil => rfl
  | cons p more ih =>
    simp only [List.foldl_cons]
    rw [ih _ (fun q hq => h q (List.mem_cons_of_mem _ hq))]
    have hp : name ≠ p.1 := fun e => h p (List.mem_cons_self _ _) e.symm
    simp [Environment.set, hp]

theorem foldl_set_lookup (ids : List String) (vals : List Node) (env : Environment)
    (i : Nat) (name : String) (v : Node)
    (hi : ids[i]? = some name) (hv : vals[i]? = some v)
    (hlast : ∀ j, i < j → ids[j]? ≠ some name) :
    ((ids.zip vals).foldl (fun e p => e.set p.1 p.2) env) name = some v := by
  induction ids generalizing env vals i with
  | nil => simp at hi
  | cons a more ih =>
    cases vals with
    | nil => simp at hv
    | cons w ws =>
      simp only [List.zip_cons_cons, List.foldl_cons]
      cases i with
      | zero =>
        simp only [List.getElem?_cons_zero, Option.some.injEq] at hi hv
        subst hi hv
        rw [foldl_set_other]
        · simp [Environment.set]
        · intro p hp hname
          have hmem : p.1 ∈ more := (List.of_mem_zip hp).1
          obtain ⟨j, hj⟩ := List.getElem?_of_mem hmem
          exact hlast (j + 1) (Nat.succ_pos j) (by simpa [hname] using hj)
      | succ k =>
        simp only [List.getElem?_cons_succ] at hi hv
        refine ih ws _ k hi hv ?_
        intro j hj
        have := hlast (j + 1) (by omega)
        simpa using this

/-- C9 (as stated, refuted): after `def {x x} 1 2`, which has as many values as
identifiers and returns the unit value, looking up the first identifier `x`
yields `2`, not its own value `1`. -/
theorem Def_repeated_identifier_counterexample :
    Def exampleTypeString Environment.empty
        [qexpr [.IdentifierNode "x", .IdentifierNode "x"], .NumberNode 1, .NumberNode 2]
      = .ok (unit, (Environment.empty.set "x" (.NumberNode 1)).set "x" (.NumberNode 2))
    ∧ ((Environment.empty.set "x" (.NumberNode 1)).set "x" (.NumberNode 2)) "x"
        = some (.NumberNode 2)
    ∧ ((Environment.empty.set "x" (.NumberNode 1)).set "x" (.NumberNode 2)) "x"
        ≠ some (.NumberNode 1) := by
  refine ⟨rfl, ?_, ?_⟩ <;> simp [Environment.set]

/-- C9 (amended): for every environment and every call
`Def(env, [Q-expression of identifiers id_1..id_k, v_1, ..., v_k])` with as many
values as identifiers, the call returns the empty S-expression and afterwards,
for every `i` such that `id_i` does not occur again at a later position of the
identifier list, looking up `id_i` in the environment yields `v_i`, whatever was
bound to it before. -/
theorem Def_binds_identifiers (TypeString : Node → String) (env : Environment)
    (ids : List String) (vals : List Node) (hlen : vals.length = ids.length) :
    ∃ env' : Environment,
      Def TypeString env (qexpr (ids.map .IdentifierNode) :: vals) = .ok (unit, env')
      ∧ ∀ (i : Nat) (name : String) (v : Node),
          ids[i]? = some name → vals[i]? = some v →
          (∀ j, i < j → ids[j]? ≠ some name) → env' name = some v := by
  refine ⟨(ids.zip vals).foldl (fun e p => e.set p.1 p.2) env, ?_, ?_⟩
  · simp only [Def, defCheck_identifiers, List.length_map, hlen, ne_eq, not_true_eq_false,
      if_false, defBind_identifiers ids vals env hlen]
  · intro i name v hi hv hlast
    exact foldl_set_lookup ids vals env i name v hi hv hlast

/-- C9 (amended) at `def {x y} 1 2` in an environment that binds `x` to `9`:
afterwards `x` is bound to `1` and `y` to `2`. -/
theorem Def_binds_identifiers_witness :
    ∃ env' : Environment,
      Def exampleTypeString (Environment.empty.set "x" (.NumberNode 9))
          [qexpr [.IdentifierNode "x", .IdentifierNode "y"], .NumberNode 1, .NumberNode 2]
        = .ok (unit, env')
      ∧ env' "x" = some (.NumberNode 1) ∧ env' "y" = some (.NumberNode 2) := by
  obtain ⟨env', hcall, hlookup⟩ := Def_binds_identifiers exampleTypeString
    (Environment.empty.set "x" (.NumberNode 9)) ["x", "y"] [.NumberNode 1, .NumberNode 2] rfl
  refine ⟨env', hcall, hlookup 0 "x" (.NumberNode 1) rfl rfl ?_,
    hlookup 1 "y" (.NumberNode 2) rfl rfl ?_⟩
  · intro j hj
    match j, hj with
    | 1, _ => simp
    | (k + 2), _ => simp
  · intro j hj
    match j, hj with
    | (k + 2), _ => simp

end Builtin

namespace Builtin

theorem Def_not_qexpr (ts : Node → String) (env : Environment) (first : Node) (rest : List Node)
    (h : first.isQExpression = false) :
    Def ts env (first :: rest)
      = .ok (.ErrorNode (.IncorrectType "Q-Expression" (ts first)), env) := by
  cases first with
  | ExpressionNode type nodes =>
    cases type with
    | SExpression => rfl
    | QExpression => simp [Node.isQExpression] at h
  | NumberNode v => rfl
  | IdentifierNode name => rfl
  | ErrorNode err => rfl

/-- C10: on a non-empty argument list `first :: rest`, `Def` never panics, and
it returns an `ErrorNode` if and only if `first` is not a Q-expression or some
element of it is not an `IdentifierNode` (in both cases an `IncorrectType`
error) or the number of remaining arguments differs from the number of
identifiers (an arity message); in every other case it returns the empty
S-expression. -/
theorem Def_error_iff (TypeString : Node → String) (env : Environment)
    (first : Node) (rest : List Node) :
    ∃ (node : Node) (env' : Environment),
      Def TypeString env (first :: rest) = .ok (node, env')
      ∧ (node.isError = true ↔
          (first.isQExpression = false
            ∨ ∃ nodes, first = qexpr nodes
                ∧ ((∃ elem ∈ nodes, elem.isIdentifier = false) ∨ rest.length ≠ nodes.length)))
      ∧ (node.isError = false → node = unit)
      ∧ (first.isQExpression = false →
          node = .ErrorNode (.IncorrectType "Q-Expression" (TypeString first)))
      ∧ (∀ nodes, first = qexpr nodes → (∃ elem ∈ nodes, elem.isIdentifier = false) →
          ∃ elem ∈ nodes, elem.isIdentifier = false
            ∧ node = .ErrorNode (.IncorrectType "Identifier" (TypeString elem)))
      ∧ (∀ nodes, first = qexpr nodes → (∀ elem ∈ nodes, elem.isIdentifier = true) →
          rest.length ≠ nodes.length →
          node = .ErrorNode (.message ("expected " ++ toString (nodes.length + 1)
            ++ " arguments, got " ++ toString (rest.length + 1)))) := by
  by_cases hq : first.isQExpression = false
  · refine ⟨_, env, Def_not_qexpr TypeString env first rest hq, ?_, ?_, ?_, ?_, ?_⟩
    · simp [Node.isError, hq]
    · simp [Node.isError]
    · intro _; rfl
    · rintro nodes rfl
      simp [Node.isQExpression] at hq
    · rintro nodes rfl
      simp [Node.isQExpression] at hq
  · obtain ⟨nodes, rfl⟩ : ∃ nodes, first = qexpr nodes := by
      cases first with
      | ExpressionNode type nodes =>
        cases type with
        | SExpression => simp [Node.isQExpression] at hq
        | QExpression => exact ⟨nodes, rfl⟩
      | NumberNode v => simp [Node.isQExpression] at hq
      | IdentifierNode name => simp [Node.isQExpression] at hq
      | ErrorNode err => simp [Node.isQExpression] at hq
    cases hc : defCheck nodes with
    | some elem =>
      obtain ⟨hmem, hid⟩ := defCheck_some hc
      refine ⟨.ErrorNode (.IncorrectType "Identifier" (TypeString elem)), env, ?_, ?_, ?_, ?_,
        ?_, ?_⟩
      · simp only [Def, hc]
      · simp only [Node.isError, true_iff]
        exact Or.inr ⟨nodes, rfl, Or.inl ⟨elem, hmem, hid⟩⟩
      · simp [Node.isError]
      · intro h; exact absurd h hq
      · intro nodes2 h2 _
        have h3 : nodes = nodes2 := by simpa [qexpr] using h2
        subst h3
        exact ⟨elem, hmem, hid, rfl⟩
      · intro nodes2 h2 hall _
        have h3 : nodes = nodes2 := by simpa [qexpr] using h2
        subst h3
        have := hall elem hmem
        simp [hid] at this
    | none =>
      obtain ⟨ids, rfl⟩ := defCheck_none hc
      have hallid : ∀ elem ∈ ids.map Node.IdentifierNode, elem.isIdentifier = true := by
        intro elem he
        obtain ⟨a, _, rfl⟩ := List.mem_map.mp he
        rfl
      by_cases hlen : rest.length = (ids.map Node.IdentifierNode).length
      · refine ⟨unit, (ids.zip rest).foldl (fun e p => e.set p.1 p.2) env, ?_, ?_, ?_, ?_,
          ?_, ?_⟩
        · simp only [Def, hc, hlen, ne_eq, not_true_eq_false, if_false,
            defBind_identifiers ids rest env (by simpa using hlen)]
        · simp only [Node.isError, Bool.false_eq_true, false_iff]
          rintro (h | ⟨nodes2, h2, h3⟩)
          · exact hq h
          · have h4 : ids.map Node.IdentifierNode = nodes2 := by simpa [qexpr] using h2
            subst h4
            rcases h3 with ⟨elem, hmem, hid⟩ | h3
            · have := hallid elem hmem
              simp [hid] at this
            · exact h3 hlen
        · intro _; rfl
        · intro h; exact absurd h hq
        · rintro nodes2 h2 ⟨elem, hmem, hid⟩
          have h4 : ids.map Node.IdentifierNode = nodes2 := by simpa [qexpr] using h2
          subst h4
          have := hallid elem hmem
          simp [hid] at this
        · intro nodes2 h2 _ h3
          have h4 : ids.map Node.IdentifierNode = nodes2 := by simpa [qexpr] using h2
          subst h4
          exact absurd hlen h3
      · refine ⟨.ErrorNode (.message ("expected "
            ++ toString ((ids.map Node.IdentifierNode).length + 1)
            ++ " arguments, got " ++ toString (rest.length + 1))), env, ?_, ?_, ?_, ?_, ?_, ?_⟩
        · simp only [Def, hc, ne_eq, hlen, not_false_eq_true, if_true]
        · simp only [Node.isError, true_iff]
          exact Or.inr ⟨_, rfl, Or.inr hlen⟩
        · simp [Node.isError]
        · intro h; exact absurd h hq
        · rintro nodes2 h2 ⟨elem, hmem, hid⟩
          have h4 : ids.map Node.IdentifierNode = nodes2 := by simpa [qexpr] using h2
          subst h4
          have := hallid elem hmem
          simp [hid] at this
        · intro nodes2 h2 _ _
          have h4 : ids.map Node.IdentifierNode = nodes2 := by simpa [qexpr] using h2
          subst h4
          rfl

/-- C10 at `def {x} 1 2`: the arity error "expected 2 arguments, got 3". -/
theorem Def_error_iff_witness :
    ∃ (node : Node) (env' : Environment),
      Def exampleTypeString Environment.empty
          [qexpr [.IdentifierNode "x"], .NumberNode 1, .NumberNode 2] = .ok (node, env')
      ∧ node.isError = true
      ∧ node = .ErrorNode (.message "expected 2 arguments, got 3") := by
  obtain ⟨node, env', hcall, hiff, _, _, _, harity⟩ := Def_error_iff exampleTypeString
    Environment.empty (qexpr [.IdentifierNode "x"]) [.NumberNode 1, .NumberNode 2]
  refine ⟨node, env', hcall, hiff.mpr (Or.inr ⟨_, rfl, Or.inr (by decide)⟩), ?_⟩
  exact harity [.IdentifierNode "x"] rfl (by simp [Node.isIdentifier]) (by decide)

end Builtin

namespace Builtin

/-! ## `Def`: the environment after the call -/

/-- C19: `Def` is atomic on failure: for every environment and every non-empty
argument list on which `Def` returns an `ErrorNode` (type error or arity
error), the environment after the call is the environment before it. -/
theorem Def_error_keeps_environment (TypeString : Node → String) (env env' : Environment)
    (args : List Node) (node : Node) (_hne : args ≠ [])
    (hcall : Def TypeString env args = .ok (node, env')) (herr : node.isError = true) :
    env' = env := by
  cases args with
  | nil => simp [Def] at hcall
  | cons first rest =>
    by_cases hq : first.isQExpression = false
    · rw [Def_not_qexpr TypeString env first rest hq] at hcall
      simp only [Except.ok.injEq, Prod.mk.injEq] at hcall
      exact hcall.2.symm
    · obtain ⟨nodes, rfl⟩ : ∃ nodes, first = qexpr nodes := by
        cases first with
        | ExpressionNode type nodes =>
          cases type with
          | SExpression => simp [Node.isQExpression] at hq
          | QExpression => exact ⟨nodes, rfl⟩
        | NumberNode v => simp [Node.isQExpression] at hq
        | IdentifierNode name => simp [Node.isQExpression] at hq
        | ErrorNode err => simp [Node.isQExpression] at hq
      cases hc : defCheck nodes with
      | some elem =>
        simp only [Def, hc, Except.ok.injEq, Prod.mk.injEq] at hcall
        exact hcall.2.symm
      | none =>
        obtain ⟨ids, rfl⟩ := defCheck_none hc
        by_cases hlen : rest.length = (ids.map Node.IdentifierNode).length
        · simp only [Def, hc, hlen, ne_eq, not_true_eq_false, if_false,
            defBind_identifiers ids rest env (by simpa using hlen), Except.ok.injEq,
            Prod.mk.injEq] at hcall
          rw [← hcall.1] at herr
          simp [Node.isError] at herr
        · simp only [Def, hc, ne_eq, hlen, not_false_eq_true, if_true, Except.ok.injEq,
            Prod.mk.injEq] at hcall
          exact hcall.2.symm

/-- C19 at `def {x} 1 2` in an environment that binds `x` to `9`: the arity
error leaves `x` bound to `9`. -/
theorem Def_error_keeps_environment_witness :
    Def exampleTypeString (Environment.empty.set "x" (.NumberNode 9))
        [qexpr [.IdentifierNode "x"], .NumberNode 1, .NumberNode 2]
      = .ok (.ErrorNode (.message "expected 2 arguments, got 3"),
          Environment.empty.set "x" (.NumberNode 9))
    ∧ Environment.empty.set "x" (.NumberNode 9) = Environment.empty.set "x" (.NumberNode 9) :=
  ⟨rfl, Def_error_keeps_environment exampleTypeString
    (Environment.empty.set "x" (.NumberNode 9)) (Environment.empty.set "x" (.NumberNode 9))
    [qexpr [.IdentifierNode "x"], .NumberNode 1, .NumberNode 2]
    (.ErrorNode (.message "expected 2 arguments, got 3")) (by simp) rfl rfl⟩

/-- C20: after every successful `Def` call the argument list was a Q-expression
of identifiers `id_1..id_k` followed by as many values `v_1..v_k`, and the
environment equals the previous environment updated by assigning
`id_1 := v_1, ..., id_k := v_k` from left to right: every name that is not among
the identifiers keeps its previous binding or absence, and a name listed more
than once ends bound to the value paired with its last occurrence. -/
theorem Def_success_assigns_left_to_right (TypeString : Node → String)
    (env env' : Environment) (args : List Node) (node : Node)
    (hcall : Def TypeString env args = .ok (node, env')) (hok : node.isError = false) :
    ∃ (ids : List String) (vals : List Node),
      args = qexpr (ids.map .IdentifierNode) :: vals
      ∧ vals.length = ids.length
      ∧ node = unit
      ∧ env' = (ids.zip vals).foldl (fun e p => e.set p.1 p.2) env
      ∧ (∀ name, name ∉ ids → env' name = env name)
      ∧ (∀ (i : Nat) (name : String) (v : Node), ids[i]? = some name → vals[i]? = some v →
          (∀ j, i < j → ids[j]? ≠ some name) → env' name = some v) := by
  cases args with
  | nil => simp [Def] at hcall
  | cons first rest =>
    by_cases hq : first.isQExpression = false
    · rw [Def_not_qexpr TypeString env first rest hq] at hcall
      simp only [Except.ok.injEq, Prod.mk.injEq] at hcall
      rw [← hcall.1] at hok
      simp [Node.isError] at hok
    · obtain ⟨nodes, rfl⟩ : ∃ nodes, first = qexpr nodes := by
        cases first with
        | ExpressionNode type nodes =>
          cases type with
          | SExpression => simp [Node.isQExpression] at hq
          | QExpression => exact ⟨nodes, rfl⟩
        | NumberNode v => simp [Node.isQExpression] at hq
        | IdentifierNode name => simp [Node.isQExpression] at hq
        | ErrorNode err => simp [Node.isQExpression] at hq
      cases hc : defCheck nodes with
      | some elem =>
        simp only [Def, hc, Except.ok.injEq, Prod.mk.injEq] at hcall
        rw [← hcall.1] at hok
        simp [Node.isError] at hok
      | none =>
        obtain ⟨ids, rfl⟩ := defCheck_none hc
        by_cases hlen : rest.length = (ids.map Node.IdentifierNode).length
        · have hlen2 : rest.length = ids.length := by simpa using hlen
          simp only [Def, hc, hlen, ne_eq, not_true_eq_false, if_false,
            defBind_identifiers ids rest env hlen2, Except.ok.injEq, Prod.mk.injEq] at hcall
          obtain ⟨hnode, henv⟩ := hcall
          refine ⟨ids, rest, rfl, hlen2, hnode.symm, henv.symm, ?_, ?_⟩
          · intro name hname
            rw [← henv]
            apply foldl_set_other
            intro p hp hpn
            exact hname (hpn ▸ (List.of_mem_zip hp).1)
          · intro i name v hi hv hlast
            rw [← henv]
            exact foldl_set_lookup ids rest env i name v hi hv hlast
        · simp only [Def, hc, ne_eq, hlen, not_false_eq_true, if_true, Except.ok.injEq,
            Prod.mk.injEq] at hcall
          rw [← hcall.1] at hok
          simp [Node.isError] at hok

/-- C20 at `def {x y x} 1 2 3` in an environment that binds `z` to `9`:
afterwards `z` is still `9`, `y` is `2` and `x` is `3`. -/
theorem Def_success_assigns_left_to_right_witness :
    ∃ env' : Environment,
      Def exampleTypeString (Environment.empty.set "z" (.NumberNode 9))
          [qexpr [.IdentifierNode "x", .IdentifierNode "y", .IdentifierNode "x"],
            .NumberNode 1, .NumberNode 2, .NumberNode 3] = .ok (unit, env')
      ∧ env' "z" = some (.NumberNode 9) ∧ env' "y" = some (.NumberNode 2)
      ∧ env' "x" = some (.NumberNode 3) := by
  refine ⟨_, rfl, ?_⟩
  obtain ⟨ids, vals, hargs, _, _, _, hframe, hlast⟩ := Def_success_assigns_left_to_right
    exampleTypeString (Environment.empty.set "z" (.NumberNode 9)) _
    [qexpr [.IdentifierNode "x", .IdentifierNode "y", .IdentifierNode "x"],
      .NumberNode 1, .NumberNode 2, .NumberNode 3] unit rfl rfl
  simp only [List.cons.injEq, Node.ExpressionNode.injEq, true_and] at hargs
  obtain ⟨hids, hvals⟩ := hargs
  have hids2 : ids = ["x", "y", "x"] := by
    have hinj : Function.Injective Node.IdentifierNode := fun a b h => by injection h
    exact (List.map_injective_iff.mpr hinj (by simpa using hids)).symm
  subst hids2 hvals
  refine ⟨hframe "z" (by decide), hlast 1 "y" _ rfl rfl ?_, hlast 2 "x" _ rfl rfl ?_⟩
  · intro j hj
    match j, hj with
    | 2, _ => simp
    | (k + 3), _ => simp
  · intro j hj
    match j, hj with
    | (k + 3), _ => simp

end Builtin

namespace Parse

/-! ## The minimal evaluator: operand errors -/

theorem repeatLoop_operand_error (op : Int → Int → Int) (pre : List Node) (bad : Node)
    (post : List Node) (x : Int) (err : String)
    (hpre : ∀ n ∈ pre, ∃ v, n.Evaluate = .ok (v, none))
    (hbad : bad.Evaluate = .ok (x, some err)) (ret : Int) :
    repeatLoop (pre ++ bad :: post) op ret = .ok (0, some err) := by
  induction pre generalizing ret with
  | nil => simp [repeatLoop, hbad]
  | cons n more ih =>
    obtain ⟨v, hv⟩ := hpre n (List.mem_cons_self _ _)
    simp only [List.cons_append, repeatLoop, hv]
    exact ih (fun m hm => hpre m (List.mem_cons_of_mem _ hm)) _

/-- The operators `+`, `-`, `*` hand the error of the first failing operand on:
this is the path `repeatOperation`, with `return 0, err`. -/
theorem repeatOperation_operand_error (op : Int → Int → Int) (pre : List Node) (bad : Node)
    (post : List Node) (x : Int) (err : String)
    (hpre : ∀ n ∈ pre, ∃ v, n.Evaluate = .ok (v, none))
    (hbad : bad.Evaluate = .ok (x, some err)) :
    repeatOperation (pre ++ bad :: post) op = .ok (0, some err) := by
  cases pre with
  | nil => simp [repeatOperation, hbad]
  | cons n more =>
    obtain ⟨v, hv⟩ := hpre n (List.mem_cons_self _ _)
    simp only [List.cons_append, repeatOperation, hv]
    exact repeatLoop_operand_error op more bad post x err
      (fun m hm => hpre m (List.mem_cons_of_mem _ hm)) hbad _

/-- C15 (the code at the failing input): the operand `/ 1 0` fails with
"division by zero"; as an operand of `+` that error is the result of the whole
expression, but as the first or the second operand of `/` it is discarded and
the whole expression returns the value `0` with no error (`return 0, nil`). -/
theorem Evaluate_division_discards_operand_error :
    Node.Evaluate (.ExpressionNode "/" [.ValueNode 1, .ValueNode 0])
        = .ok (0, some "division by zero")
    ∧ Node.Evaluate
          (.ExpressionNode "+" [.ExpressionNode "/" [.ValueNode 1, .ValueNode 0], .ValueNode 2])
        = .ok (0, some "division by zero")
    ∧ Node.Evaluate
          (.ExpressionNode "/" [.ExpressionNode "/" [.ValueNode 1, .ValueNode 0], .ValueNode 2])
        = .ok (0, none)
    ∧ Node.Evaluate
          (.ExpressionNode "/" [.ValueNode 2, .ExpressionNode "/" [.ValueNode 1, .ValueNode 0]])
        = .ok (0, none) :=
  ⟨rfl, rfl, rfl, rfl⟩

end Parse

/-! ## The minimal evaluator and the builtins -/

theorem Evaluate_add (nodes : List Parse.Node) :
    Parse.Node.Evaluate (.ExpressionNode "+" nodes)
      = if nodes.length < 2 then .ok (0, some "not enough arguments for addition operation")
        else Parse.repeatOperation nodes (fun x y => wrapInt (x + y)) := by
  rw [Parse.Node.Evaluate.eq_def]
  simp

theorem Evaluate_sub (nodes : List Parse.Node) :
    Parse.Node.Evaluate (.ExpressionNode "-" nodes)
      = if nodes.length < 2 then .ok (0, some "not enough arguments for subtraction operation")
        else Parse.repeatOperation nodes (fun x y => wrapInt (x - y)) := by
  rw [Parse.Node.Evaluate.eq_def]
  simp

theorem Evaluate_mul (nodes : List Parse.Node) :
    Parse.Node.Evaluate (.ExpressionNode "*" nodes)
      = if nodes.length < 2 then .ok (0, some "not enough arguments for multiplication operation")
        else Parse.repeatOperation nodes (fun x y => wrapInt (x * y)) := by
  rw [Parse.Node.Evaluate.eq_def]
  simp

theorem repeatLoop_values (op : Int → Int → Int) (nums : List Int) (ret : Int) :
    Parse.repeatLoop (nums.map .ValueNode) op ret = .ok (nums.foldl op ret, none) := by
  induction nums generalizing ret with
  | nil => rfl
  | cons n more ih => simp only [List.map_cons, Parse.repeatLoop, Parse.Node.Evaluate, ih,
      List.foldl_cons]

theorem addLoop_foldl (ts : Builtin.Node → String) (nums : List Int) (sum : Int) :
    Builtin.addLoop ts sum (nums.map .NumberNode)
      = .NumberNode (nums.foldl (fun x y => wrapInt (x + y)) sum) := by
  induction nums generalizing sum with
  | nil => rfl
  | cons n more ih => simp only [List.map_cons, Builtin.addLoop, ih, List.foldl_cons]

theorem subLoop_foldl (ts : Builtin.Node → String) (nums : List Int) (sum : Int) :
    Builtin.subLoop ts sum (nums.map .NumberNode)
      = .NumberNode (nums.foldl (fun x y => wrapInt (x - y)) sum) := by
  induction nums generalizing sum with
  | nil => rfl
  | cons n more ih => simp only [List.map_cons, Builtin.subLoop, ih, List.foldl_cons]

theorem mulLoop_foldl (ts : Builtin.Node → String) (nums : List Int) (sum : Int) :
    Builtin.mulLoop ts sum (nums.map .NumberNode)
      = .NumberNode (nums.foldl (fun x y => wrapInt (x * y)) sum) := by
  induction nums generalizing sum with
  | nil => rfl
  | cons n more ih => simp only [List.map_cons, Builtin.mulLoop, ih, List.foldl_cons]

/-- C17: the minimal evaluator is a subset of the builtin library: for each
operator `+`, `-`, `*`, `/` and every list of integer literal operands on which
`Evaluate` of the expression succeeds with the value `v`, the builtin `Add`,
`Sub`, `Mul`, `Div` respectively, applied to the same integers as `NumberNode`s,
returns `NumberNode(v)`. -/
theorem minimal_evaluator_within_builtins (TypeString : Builtin.Node → String)
    (env : Builtin.Environment) (nums : List Int) (v : Int) :
    (Parse.Node.Evaluate (.ExpressionNode "+" (nums.map .ValueNode)) = .ok (v, none) →
        Builtin.Add TypeString env (nums.map .NumberNode) = .ok (.NumberNode v, env))
    ∧ (Parse.Node.Evaluate (.ExpressionNode "-" (nums.map .ValueNode)) = .ok (v, none) →
        Builtin.Sub TypeString env (nums.map .NumberNode) = .ok (.NumberNode v, env))
    ∧ (Parse.Node.Evaluate (.ExpressionNode "*" (nums.map .ValueNode)) = .ok (v, none) →
        Builtin.Mul TypeString env (nums.map .NumberNode) = .ok (.NumberNode v, env))
    ∧ (Parse.Node.Evaluate (.ExpressionNode "/" (nums.map .ValueNode)) = .ok (v, none) →
        Builtin.Div TypeString env (nums.map .NumberNode) = .ok (.NumberNode v, env)) := by
  refine ⟨?_, ?_, ?_, ?_⟩
  · intro h
    match nums, h with
    | [], h => simp [Evaluate_add] at h
    | [a], h => simp [Evaluate_add] at h
    | a :: b :: rest, h =>
      simp [Evaluate_add, Parse.repeatOperation, Parse.repeatLoop, repeatLoop_values,
        Parse.Node.Evaluate, show ¬ rest.length + 1 + 1 < 2 by omega] at h
      simp [Builtin.Add, Builtin.addLoop, addLoop_foldl, wrapInt_add_left, h]
  · intro h
    match nums, h with
    | [], h => simp [Evaluate_sub] at h
    | [a], h => simp [Evaluate_sub] at h
    | a :: b :: rest, h =>
      simp [Evaluate_sub, Parse.repeatOperation, Parse.repeatLoop, repeatLoop_values,
        Parse.Node.Evaluate, show ¬ rest.length + 1 + 1 < 2 by omega] at h
      simp [Builtin.Sub, Builtin.subLoop, subLoop_foldl, h]
  · intro h
    match nums, h with
    | [], h => simp [Evaluate_mul] at h
    | [a], h => simp [Evaluate_mul] at h
    | a :: b :: rest, h =>
      simp [Evaluate_mul, Parse.repeatOperation, Parse.repeatLoop, repeatLoop_values,
        Parse.Node.Evaluate, show ¬ rest.length + 1 + 1 < 2 by omega] at h
      simp [Builtin.Mul, Builtin.mulLoop, mulLoop_foldl, h]
  · intro h
    match nums, h with
    | [], h => simp [Parse.Node.Evaluate] at h
    | [a], h => simp [Parse.Node.Evaluate] at h
    | [a, b], h =>
      by_cases hb : b = 0
      · subst hb
        simp [Parse.Node.Evaluate] at h
      · simp [Parse.Node.Evaluate, hb] at h
        simp [Builtin.Div, Builtin.divLoop, hb, h]
    | a :: b :: c :: rest, h => simp [Parse.Node.Evaluate] at h

/-- C17 at `+ 1 2 3`, `- 10 3 2`, `* 2 3 4` and `/ -7 2`. -/
theorem minimal_evaluator_within_builtins_witness :
    Builtin.Add Builtin.exampleTypeString Builtin.Environment.empty
        [.NumberNode 1, .NumberNode 2, .NumberNode 3]
      = .ok (.NumberNode 6, Builtin.Environment.empty)
    ∧ Builtin.Sub Builtin.exampleTypeString Builtin.Environment.empty
        [.NumberNode 10, .NumberNode 3, .NumberNode 2]
      = .ok (.NumberNode 5, Builtin.Environment.empty)
    ∧ Builtin.Mul Builtin.exampleTypeString Builtin.Environment.empty
        [.NumberNode 2, .NumberNode 3, .NumberNode 4]
      = .ok (.NumberNode 24, Builtin.Environment.empty)
    ∧ Builtin.Div Builtin.exampleTypeString Builtin.Environment.empty
        [.NumberNode (-7), .NumberNode 2]
      = .ok (.NumberNode (-3), Builtin.Environment.empty) :=
  ⟨(minimal_evaluator_within_builtins Builtin.exampleTypeString Builtin.Environment.empty
      [1, 2, 3] 6).1 rfl,
   (minimal_evaluator_within_builtins Builtin.exampleTypeString Builtin.Environment.empty
      [10, 3, 2] 5).2.1 rfl,
   (minimal_evaluator_within_builtins Builtin.exampleTypeString Builtin.Environment.empty
      [2, 3, 4] 24).2.2.1 rfl,
   (minimal_evaluator_within_builtins Builtin.exampleTypeString Builtin.Environment.empty
      [-7, 2] (-3)).2.2.2 rfl⟩

namespace Parse

/-! ## `strconv.Atoi` on decimal texts -/

theorem digitChar_digit (k : Nat) (hk : k < 10) :
    (Nat.digitChar k).isDigit = true ∧ (Nat.digitChar k).toNat - '0'.toNat = k := by
  interval_cases k <;> exact ⟨by decide, by decide⟩

theorem toDigitsCore_append (fuel n : Nat) (ds : List Char) :
    Nat.toDigitsCore 10 fuel n ds = Nat.toDigitsCore 10 fuel n [] ++ ds := by
  induction fuel generalizing n ds with
  | zero => simp [Nat.toDigitsCore]
  | succ fuel ih =>
    simp only [Nat.toDigitsCore]
    split
    · simp
    · rw [ih, ih (n / 10) [Nat.digitChar (n % 10)]]
      simp

theorem atoiLoop_append (n : Nat) (l : List Char) (ch : Char) :
    atoiLoop n (l ++ [ch])
      = match atoiLoop n l with
        | some m => if ch.isDigit then some (m * 10 + (ch.toNat - '0'.toNat)) else none
        | none => none := by
  induction l generalizing n with
  | nil => simp [atoiLoop]
  | cons c more ih =>
    simp only [List.cons_append, atoiLoop]
    split
    · exact ih _
    · rfl

theorem atoiLoop_toDigitsCore (fuel n : Nat) (h : n < fuel) :
    atoiLoop 0 (Nat.toDigitsCore 10 fuel n []) = some n := by
  induction fuel generalizing n with
  | zero => omega
  | succ fuel ih =>
    simp only [Nat.toDigitsCore]
    have hd := digitChar_digit (n % 10) (Nat.mod_lt _ (by decide))
    split
    · rename_i h0
      have hn : n % 10 = n := by omega
      rw [hn] at hd
      have h48 : n.digitChar.toNat - 48 = n := hd.2
      simp [atoiLoop, hn, hd.1, h48]
    · rename_i h0
      rw [toDigitsCore_append, atoiLoop_append, ih (n / 10) (by omega)]
      simp only [hd.1, hd.2, if_true]
      congr 1
      omega

theorem toDigits_ne_nil (n : Nat) : Nat.toDigits 10 n ≠ [] := by
  unfold Nat.toDigits
  simp only [Nat.toDigitsCore]
  split
  · simp
  · rw [toDigitsCore_append]
    simp

theorem atoiLoop_toDigits (n : Nat) : atoiLoop 0 (Nat.toDigits 10 n) = some n :=
  atoiLoop_toDigitsCore (n + 1) n (Nat.lt_succ_self n)

theorem atoiLoop_head_isDigit {n m : Nat} {ch : Char} {rest : List Char}
    (h : atoiLoop n (ch :: rest) = some m) : ch.isDigit = true := by
  by_contra hc
  simp [atoiLoop, hc] at h

theorem Atoi_decimalText (v : Int) (hv : inIntRange v) : Atoi (decimalText v) = v := by
  unfold inIntRange at hv
  cases v with
  | ofNat m =>
    have hdata : (decimalText (Int.ofNat m)).data = Nat.toDigits 10 m := rfl
    have hval := atoiLoop_toDigits m
    have hne := toDigits_ne_nil m
    unfold Atoi
    rw [hdata]
    cases hl : Nat.toDigits 10 m with
    | nil => exact absurd hl hne
    | cons ch rest =>
      rw [hl] at hval
      have hdig := atoiLoop_head_isDigit hval
      have h1 : ch ≠ '-' := by rintro rfl; simp [Char.isDigit] at hdig
      have h2 : ch ≠ '+' := by rintro rfl; simp [Char.isDigit] at hdig
      simp only [h1, h2, if_false, hval, clampInt]
      have : (Int.ofNat m) = (m : Int) := rfl
      rw [this] at hv
      split
      · omega
      · split
        · omega
        · rfl
  | negSucc m =>
    have hdata : (decimalText (Int.negSucc m)).data = '-' :: Nat.toDigits 10 (m + 1) := by
      show ("-" ++ Nat.repr (m + 1)).data = _
      simp [Nat.repr, List.asString]
    have hval := atoiLoop_toDigits (m + 1)
    have hne := toDigits_ne_nil (m + 1)
    unfold Atoi
    rw [hdata]
    cases hl : Nat.toDigits 10 (m + 1) with
    | nil => exact absurd hl hne
    | cons ch rest =>
      rw [hl] at hval
      simp only [if_true, hval, clampInt]
      have hneg : Int.negSucc m = -((m + 1 : Nat) : Int) := rfl
      rw [hneg] at hv ⊢
      split
      · omega
      · split
        · omega
        · rfl

end Parse

namespace Parse

/-! ## `findMatchingClose` -/

theorem depthOf_append (a b : List Token) : depthOf (a ++ b) = depthOf a + depthOf b := by
  induction a with
  | nil => simp [depthOf]
  | cons t more ih =>
    rw [List.cons_append, depthOf, depthOf, ih]
    ring

theorem depthOf_take_succ_cons (t : Token) (rest : List Token) (k : Nat) :
    depthOf ((t :: rest).take (k + 1)) = depthOf [t] + depthOf (rest.take k) := by
  simp [depthOf]

theorem findMatchingCloseLoop_result (depth : Int) (i : Nat) (tokens : List Token) :
    findMatchingCloseLoop depth i tokens = -1
      ∨ ∃ n, n < tokens.length ∧ findMatchingCloseLoop depth i tokens = ((i + n : Nat) : Int) := by
  induction tokens generalizing depth i with
  | nil => left; rfl
  | cons t rest ih =>
    have step : ∀ d, findMatchingCloseLoop d (i + 1) rest = -1
        ∨ ∃ n, n < (t :: rest).length
            ∧ findMatchingCloseLoop d (i + 1) rest = ((i + n : Nat) : Int) := by
      intro d
      rcases ih d (i + 1) with h | ⟨n, hn, h⟩
      · exact Or.inl h
      · exact Or.inr ⟨n + 1, by simpa using hn, by rw [h]; congr 1; omega⟩
    unfold findMatchingCloseLoop
    split
    · exact step _
    · split
      · exact Or.inr ⟨0, by simp, by simp⟩
      · exact step _
    · exact step _

theorem findMatchingCloseLoop_found (tokens : List Token) (depth : Int) (i n : Nat)
    (hd : 1 ≤ depth)
    (h : findMatchingCloseLoop depth i tokens = ((i + n : Nat) : Int)) :
    n < tokens.length
      ∧ (∃ t, tokens[n]? = some t ∧ t.type = .Close)
      ∧ depth + depthOf (tokens.take (n + 1)) = 0
      ∧ ∀ m, m ≤ n → 1 ≤ depth + depthOf (tokens.take m) := by
  induction tokens generalizing depth i n with
  | nil => simp [findMatchingCloseLoop] at h; omega
  | cons t rest ih =>
    have step : ∀ d, 1 ≤ d → depth + depthOf [t] = d →
        findMatchingCloseLoop d (i + 1) rest = ((i + n : Nat) : Int) →
        n < (t :: rest).length
          ∧ (∃ u, (t :: rest)[n]? = some u ∧ u.type = .Close)
          ∧ depth + depthOf ((t :: rest).take (n + 1)) = 0
          ∧ ∀ m, m ≤ n → 1 ≤ depth + depthOf ((t :: rest).take m) := by
      intro d hd1 hstep hrec
      rcases findMatchingCloseLoop_result d (i + 1) rest with hneg | ⟨k, _, hk⟩
      · rw [hneg] at hrec; omega
      · have hnk : n = k + 1 := by rw [hk] at hrec; omega
        subst hnk
        have hrec2 : findMatchingCloseLoop d (i + 1) rest = ((i + 1 + k : Nat) : Int) := by
          rw [hrec]; congr 1; omega
        obtain ⟨h1, h2, h3, h4⟩ := ih d (i + 1) k hd1 hrec2
        refine ⟨by simpa using h1, by simpa using h2, ?_, ?_⟩
        · rw [depthOf_take_succ_cons]; omega
        · intro m hm
          cases m with
          | zero => simpa [depthOf] using hd
          | succ m =>
            rw [depthOf_take_succ_cons]
            have := h4 m (by omega)
            omega
    unfold findMatchingCloseLoop at h
    split at h
    · rename_i ht
      exact step (depth + 1) (by omega) (by simp [depthOf, ht]) h
    · rename_i ht
      split at h
      · rename_i hz
        have hn : n = 0 := by omega
        subst hn
        refine ⟨by simp, ⟨t, by simp, ht⟩, ?_, ?_⟩
        · simp [depthOf, ht]; omega
        · intro m hm
          have : m = 0 := by omega
          subst this
          simpa [depthOf] using hd
      · rename_i hz
        exact step (depth - 1) (by omega) (by simp [depthOf, ht]; ring) h
    · rename_i ht1 ht2
      refine step depth hd ?_ h
      cases hty : t.type <;> simp_all [depthOf]

theorem findMatchingCloseLoop_not_found (tokens : List Token) (depth : Int) (i : Nat)
    (hd : 1 ≤ depth) (h : findMatchingCloseLoop depth i tokens = -1) :
    ∀ m, m ≤ tokens.length → 1 ≤ depth + depthOf (tokens.take m) := by
  induction tokens generalizing depth i with
  | nil => intro m _; simpa [depthOf] using hd
  | cons t rest ih =>
    have step : ∀ d, 1 ≤ d → depth + depthOf [t] = d →
        findMatchingCloseLoop d (i + 1) rest = -1 →
        ∀ m, m ≤ (t :: rest).length → 1 ≤ depth + depthOf ((t :: rest).take m) := by
      intro d hd1 hstep hrec m hm
      cases m with
      | zero => simpa [depthOf] using hd
      | succ m =>
        rw [depthOf_take_succ_cons]
        have := ih d (i + 1) hd1 hrec m (by simpa using hm)
        omega
    unfold findMatchingCloseLoop at h
    split at h
    · rename_i ht
      exact step (depth + 1) (by omega) (by simp [depthOf, ht]) h
    · rename_i ht
      split at h
      · omega
      · rename_i hz
        exact step (depth - 1) (by omega) (by simp [depthOf, ht]; ring) h
    · rename_i ht1 ht2
      refine step depth hd ?_ h
      cases hty : t.type <;> simp_all [depthOf]

theorem findMatchingClose_cons_open (first : Token) (rest : List Token)
    (hopen : first.type = .Open) :
    findMatchingClose (first :: rest) = findMatchingCloseLoop 1 1 rest := by
  simp [findMatchingClose, findMatchingCloseLoop, hopen]

theorem depthOf_take_succ_open (first : Token) (rest : List Token)
    (hopen : first.type = .Open) (k : Nat) :
    depthOf ((first :: rest).take (k + 1)) = 1 + depthOf (rest.take k) := by
  simp [depthOf, hopen]

/-- C16: for every token list whose first token is `Open`, `findMatchingClose`
returns the smallest index `i` at which the depth counter (the number of `Open`
tokens minus the number of `Close` tokens among the tokens `0..i`) returns to
zero; the token at `i` is then a `Close` and the tokens strictly between `0` and
`i` are balanced; and it returns `-1` if and only if no such index exists (it
always returns `-1` or an index). -/
theorem findMatchingClose_smallest_return_to_zero (first : Token) (rest : List Token)
    (hopen : first.type = .Open) :
    (∀ i : Nat, findMatchingClose (first :: rest) = (i : Int) ↔
        (i < (first :: rest).length
          ∧ depthOf ((first :: rest).take (i + 1)) = 0
          ∧ ∀ j, j < i → depthOf ((first :: rest).take (j + 1)) ≠ 0))
    ∧ (∀ i : Nat, findMatchingClose (first :: rest) = (i : Int) →
        (∃ t, (first :: rest)[i]? = some t ∧ t.type = .Close)
          ∧ balanced (((first :: rest).take i).drop 1))
    ∧ (findMatchingClose (first :: rest) = -1 ↔
        ∀ i, i < (first :: rest).length → depthOf ((first :: rest).take (i + 1)) ≠ 0)
    ∧ (findMatchingClose (first :: rest) = -1
        ∨ ∃ i : Nat, findMatchingClose (first :: rest) = (i : Int)) := by
  rw [findMatchingClose_cons_open first rest hopen]
  have hres := findMatchingCloseLoop_result 1 1 rest
  have hdepth := depthOf_take_succ_open first rest hopen
  refine ⟨?_, ?_, ?_, ?_⟩
  · intro i
    constructor
    · intro h
      rcases hres with hneg | ⟨n, hn, hk⟩
      · rw [hneg] at h; omega
      · have hi : i = n + 1 := by rw [hk] at h; omega
        subst hi
        obtain ⟨_, _, h3, h4⟩ := findMatchingCloseLoop_found rest 1 1 n le_rfl hk
        refine ⟨by simpa using hn, by rw [hdepth]; exact h3, ?_⟩
        intro j hj
        rw [hdepth]
        have := h4 j (by omega)
        omega
    · rintro ⟨hi, hzero, hleast⟩
      rw [hdepth] at hzero
      rcases hres with hneg | ⟨n, hn, hk⟩
      · have := findMatchingCloseLoop_not_found rest 1 1 le_rfl hneg i
          (by simpa using Nat.lt_succ_iff.mp hi)
        omega
      · obtain ⟨_, _, h3, h4⟩ := findMatchingCloseLoop_found rest 1 1 n le_rfl hk
        have h1 : n < i := by
          by_contra hc
          have := h4 i (by omega)
          omega
        have h2 : ¬ n + 1 < i := by
          intro hc
          have := hleast (n + 1) hc
          rw [hdepth] at this
          exact this h3
        rw [hk]
        congr 1
        omega
  · intro i h
    rcases hres with hneg | ⟨n, hn, hk⟩
    · rw [hneg] at h; omega
    · have hi : i = n + 1 := by rw [hk] at h; omega
      subst hi
      obtain ⟨_, ⟨t, ht, hclose⟩, h3, h4⟩ := findMatchingCloseLoop_found rest 1 1 n le_rfl hk
      refine ⟨⟨t, by simpa using ht, hclose⟩, ?_⟩
      have hsplit : rest.take (n + 1) = rest.take n ++ [t] := by
        rw [List.take_succ, ht]; rfl
      have hzero : depthOf (rest.take n) = 0 := by
        rw [hsplit, depthOf_append] at h3
        simp [depthOf, hclose] at h3
        omega
      simp only [List.take_succ_cons, List.drop_succ_cons, List.drop_zero]
      refine ⟨hzero, ?_⟩
      intro k hk2
      have hkn : k ≤ n := by
        simp only [List.length_take] at hk2
        omega
      rw [List.take_take, Nat.min_eq_left hkn]
      have := h4 k hkn
      omega
  · constructor
    · intro hneg i hi
      rw [hdepth]
      have := findMatchingCloseLoop_not_found rest 1 1 le_rfl hneg i
        (by simpa using Nat.lt_succ_iff.mp hi)
      omega
    · intro hnone
      rcases hres with hneg | ⟨n, hn, hk⟩
      · exact hneg
      · obtain ⟨_, _, h3, _⟩ := findMatchingCloseLoop_found rest 1 1 n le_rfl hk
        have := hnone (n + 1) (by simpa using hn)
        rw [hdepth] at this
        exact absurd h3 this
  · rcases hres with hneg | ⟨n, _, hk⟩
    · exact Or.inl hneg
    · exact Or.inr ⟨1 + n, hk⟩

/-- C16 at the tokens of `(a (b) c) d)`: the matching close is at index 8. -/
theorem findMatchingClose_smallest_return_to_zero_witness :
    findMatchingClose [⟨.Open, "("⟩, ⟨.Identifier, "a"⟩, ⟨.Whitespace, " "⟩, ⟨.Open, "("⟩,
        ⟨.Identifier, "b"⟩, ⟨.Close, ")"⟩, ⟨.Whitespace, " "⟩, ⟨.Identifier, "c"⟩,
        ⟨.Close, ")"⟩, ⟨.Whitespace, " "⟩, ⟨.Identifier, "d"⟩, ⟨.Close, ")"⟩] = 8
    ∧ balanced [⟨.Identifier, "a"⟩, ⟨.Whitespace, " "⟩, ⟨.Open, "("⟩,
        ⟨.Identifier, "b"⟩, ⟨.Close, ")"⟩, ⟨.Whitespace, " "⟩, ⟨.Identifier, "c"⟩] :=
  ⟨rfl, ((findMatchingClose_smallest_return_to_zero ⟨.Open, "("⟩
      [⟨.Identifier, "a"⟩, ⟨.Whitespace, " "⟩, ⟨.Open, "("⟩,
        ⟨.Identifier, "b"⟩, ⟨.Close, ")"⟩, ⟨.Whitespace, " "⟩, ⟨.Identifier, "c"⟩,
        ⟨.Close, ")"⟩, ⟨.Whitespace, " "⟩, ⟨.Identifier, "d"⟩, ⟨.Close, ")"⟩] rfl).2.1 8 rfl).2⟩

end Parse

namespace Parse

/-! ## The steps of `ParseExpression` -/

theorem trimWhitespace_whitespace (sep : Token) (rest : List Token)
    (h : sep.type = .Whitespace) : trimWhitespace (sep :: rest) = (rest, true) := by
  simp [trimWhitespace, h]

theorem trimWhitespace_other (first : Token) (rest : List Token)
    (h : first.type ≠ .Whitespace) : trimWhitespace (first :: rest) = (first :: rest, false) := by
  simp [trimWhitespace, h]

theorem ParseExpression_of_trim (input : List Token) :
    ParseExpression input
      = match (trimWhitespace input).1 with
        | [] => .ok (.ExpressionNode "" [], some .UnexpectedEOI)
        | first :: rest =>
          if first.type ≠ .Identifier then
            .ok (.ExpressionNode "" [], some (.UnexpectedToken first))
          else parseLoop first.Value [] rest := by
  rw [ParseExpression]
  split <;> rename_i heq <;> simp [heq]

theorem parseLoop_of_trim (op : String) (nodes : List Node) (input : List Token) :
    parseLoop op nodes input
      = match trimWhitespace input with
        | (_, false) => .ok (.ExpressionNode op nodes, none)
        | ([], true) => .ok (.ExpressionNode op nodes, none)
        | (first :: rest, true) =>
          match first.type with
          | .Number => parseLoop op (nodes ++ [.ValueNode (Atoi first.Value)]) rest
          | .Open =>
            if findMatchingClose (first :: rest) = -1 then
              .ok (.ExpressionNode "" [], some .UnexpectedEOI)
            else if findMatchingClose (first :: rest) < 1 then
              .error .indexOutOfRange
            else
              match ParseExpression
                  (rest.take ((findMatchingClose (first :: rest)).toNat - 1)) with
              | .error p => .error p
              | .ok (_, some err) => .ok (.ExpressionNode "" [], some err)
              | .ok (nestedExpression, none) =>
                parseLoop op (nodes ++ [nestedExpression])
                  (rest.drop (findMatchingClose (first :: rest)).toNat)
          | _ => .ok (.ExpressionNode "" [], some (.UnexpectedToken first)) := by
  rw [parseLoop]
  split
  · rename_i heq; simp [heq]
  · rename_i heq; simp [heq]
  · rename_i heq; simp only [heq]

theorem ParseExpression_nil :
    ParseExpression [] = .ok (.ExpressionNode "" [], some .UnexpectedEOI) := by
  rw [ParseExpression_of_trim]
  simp [trimWhitespace]

theorem ParseExpression_cons_identifier (first : Token) (rest : List Token)
    (h : first.type = .Identifier) :
    ParseExpression (first :: rest) = parseLoop first.Value [] rest := by
  rw [ParseExpression_of_trim]
  simp [trimWhitespace, h]

theorem ParseExpression_cons_other (first : Token) (rest : List Token)
    (h1 : first.type ≠ .Identifier) (h2 : first.type ≠ .Whitespace) :
    ParseExpression (first :: rest)
      = .ok (.ExpressionNode "" [], some (.UnexpectedToken first)) := by
  rw [ParseExpression_of_trim]
  simp [trimWhitespace, h1, h2]

theorem ParseExpression_cons_whitespace (first : Token) (rest : List Token)
    (h : first.type = .Whitespace) :
    ParseExpression (first :: rest)
      = match rest with
        | [] => .ok (.ExpressionNode "" [], some .UnexpectedEOI)
        | second :: more =>
          if second.type ≠ .Identifier then
            .ok (.ExpressionNode "" [], some (.UnexpectedToken second))
          else parseLoop second.Value [] more := by
  rw [ParseExpression_of_trim]
  cases rest <;> simp [trimWhitespace, h]

theorem parseLoop_nil (op : String) (nodes : List Node) :
    parseLoop op nodes [] = .ok (.ExpressionNode op nodes, none) := by
  rw [parseLoop_of_trim]
  simp [trimWhitespace]

theorem parseLoop_no_whitespace (op : String) (nodes : List Node) (first : Token)
    (rest : List Token) (h : first.type ≠ .Whitespace) :
    parseLoop op nodes (first :: rest) = .ok (.ExpressionNode op nodes, none) := by
  rw [parseLoop_of_trim]
  simp [trimWhitespace, h]

theorem parseLoop_whitespace_end (op : String) (nodes : List Node) (sep : Token)
    (h : sep.type = .Whitespace) :
    parseLoop op nodes [sep] = .ok (.ExpressionNode op nodes, none) := by
  rw [parseLoop_of_trim]
  simp [trimWhitespace, h]

theorem parseLoop_number (op : String) (nodes : List Node) (sep first : Token)
    (rest : List Token) (h : sep.type = .Whitespace) (hn : first.type = .Number) :
    parseLoop op nodes (sep :: first :: rest)
      = parseLoop op (nodes ++ [.ValueNode (Atoi first.Value)]) rest := by
  rw [parseLoop_of_trim]
  simp [trimWhitespace, h, hn]

theorem parseLoop_open (op : String) (nodes : List Node) (sep first : Token)
    (rest : List Token) (h : sep.type = .Whitespace) (ho : first.type = .Open) :
    parseLoop op nodes (sep :: first :: rest)
      = if findMatchingClose (first :: rest) = -1 then
          .ok (.ExpressionNode "" [], some .UnexpectedEOI)
        else if findMatchingClose (first :: rest) < 1 then
          .error .indexOutOfRange
        else
          match ParseExpression (rest.take ((findMatchingClose (first :: rest)).toNat - 1)) with
          | .error p => .error p
          | .ok (_, some err) => .ok (.ExpressionNode "" [], some err)
          | .ok (nestedExpression, none) =>
            parseLoop op (nodes ++ [nestedExpression])
              (rest.drop (findMatchingClose (first :: rest)).toNat) := by
  rw [parseLoop_of_trim]
  simp [trimWhitespace, h, ho]

theorem parseLoop_unexpected (op : String) (nodes : List Node) (sep first : Token)
    (rest : List Token) (h : sep.type = .Whitespace) (h1 : first.type ≠ .Number)
    (h2 : first.type ≠ .Open) :
    parseLoop op nodes (sep :: first :: rest)
      = .ok (.ExpressionNode "" [], some (.UnexpectedToken first)) := by
  rw [parseLoop_of_trim, trimWhitespace_whitespace sep _ h]
  cases hty : first.type <;> simp_all

end Parse

namespace Parse

/-! ## Balanced token lists and the canonical rendering -/

theorem findMatchingCloseLoop_skip (body tail : List Token) (depth : Int) (i : Nat)
    (h : ∀ k, k ≤ body.length → 1 ≤ depth + depthOf (body.take k)) :
    findMatchingCloseLoop depth i (body ++ tail)
      = findMatchingCloseLoop (depth + depthOf body) (i + body.length) tail := by
  induction body generalizing depth i with
  | nil => simp [depthOf]
  | cons t b ih =>
    have h1 := h 1 (by simp)
    have hrest : ∀ d, depth + depthOf [t] = d →
        findMatchingCloseLoop d (i + 1) (b ++ tail)
          = findMatchingCloseLoop (depth + depthOf (t :: b)) (i + (t :: b).length) tail := by
      intro d hd
      rw [ih d (i + 1)]
      · have e1 : d + depthOf b = depth + depthOf (t :: b) := by
          have := depthOf_append [t] b
          simp only [List.singleton_append] at this
          omega
        have e2 : i + 1 + b.length = i + (t :: b).length := by simp; omega
        rw [e1, e2]
      · intro k hk
        have := h (k + 1) (by simpa using hk)
        rw [depthOf_take_succ_cons] at this
        omega
    simp only [List.take_succ_cons, List.take_zero] at h1
    rw [List.cons_append, findMatchingCloseLoop]
    split
    · rename_i ht
      exact hrest _ (by simp [depthOf, ht])
    · rename_i ht
      have hd : depthOf [t] = -1 := by simp [depthOf, ht]
      rw [if_neg (by omega)]
      exact hrest _ (by rw [hd]; ring)
    · rename_i ht1 ht2
      refine hrest _ ?_
      cases hty : t.type <;> simp_all [depthOf]

theorem findMatchingClose_balanced (first close : Token) (body suffix : List Token)
    (hopen : first.type = .Open) (hclose : close.type = .Close) (hbal : balanced body) :
    findMatchingClose (first :: (body ++ close :: suffix)) = ((body.length + 1 : Nat) : Int) := by
  rw [findMatchingClose_cons_open first _ hopen, findMatchingCloseLoop_skip]
  · rw [hbal.1, findMatchingCloseLoop]
    simp [hclose]
    omega
  · intro k hk
    have := hbal.2 k hk
    omega

theorem balanced_nil : balanced [] := by
  refine ⟨rfl, fun k _ => ?_⟩
  simp [depthOf]

theorem balanced_append {a b : List Token} (ha : balanced a) (hb : balanced b) :
    balanced (a ++ b) := by
  refine ⟨by rw [depthOf_append, ha.1, hb.1]; rfl, fun k _ => ?_⟩
  rw [List.take_append_eq_append_take, depthOf_append]
  have h1 : 0 ≤ depthOf (a.take k) := by
    by_cases hk : k ≤ a.length
    · exact ha.2 k hk
    · rw [List.take_of_length_le (by omega), ha.1]
  have h2 : 0 ≤ depthOf (b.take (k - a.length)) := by
    by_cases hk : k - a.length ≤ b.length
    · exact hb.2 _ hk
    · rw [List.take_of_length_le (by omega), hb.1]
  omega

theorem balanced_singleton (t : Token) (h1 : t.type ≠ .Open) (h2 : t.type ≠ .Close) :
    balanced [t] := by
  have hd : depthOf [t] = 0 := by
    cases hty : t.type <;> simp_all [depthOf]
  refine ⟨hd, fun k hk => ?_⟩
  have : k = 0 ∨ k = 1 := by simp at hk; omega
  rcases this with rfl | rfl
  · simp [depthOf]
  · simp only [List.take_succ_cons, List.take_zero]; omega

theorem balanced_wrap (first close : Token) (body : List Token)
    (hopen : first.type = .Open) (hclose : close.type = .Close) (hbal : balanced body) :
    balanced (first :: (body ++ [close])) := by
  have hc : depthOf [close] = -1 := by simp [depthOf, hclose]
  have ho : depthOf [first] = 1 := by simp [depthOf, hopen]
  constructor
  · have := depthOf_append [first] (body ++ [close])
    simp only [List.singleton_append] at this
    rw [this, depthOf_append, ho, hc, hbal.1]
    rfl
  · intro k _
    cases k with
    | zero => simp [depthOf]
    | succ k =>
      rw [depthOf_take_succ_cons, ho, List.take_append_eq_append_take, depthOf_append]
      have h1 : 0 ≤ depthOf (body.take k) := by
        by_cases hk : k ≤ body.length
        · exact hbal.2 k hk
        · rw [List.take_of_length_le (by omega), hbal.1]
      have h2 : -1 ≤ depthOf ([close].take (k - body.length)) := by
        cases (k - body.length) with
        | zero => simp [depthOf]
        | succ j => simp [depthOf, hclose]
      omega

mutual
theorem renderOperand_balanced (ws lp rp : String) :
    ∀ node : Node, balanced (renderOperand ws lp rp node)
  | .ValueNode v => by
    rw [renderOperand]
    exact balanced_singleton _ (by simp) (by simp)
  | .ExpressionNode op nodes => by
    rw [renderOperand]
    have h := balanced_append (balanced_singleton ⟨.Identifier, op⟩ (by simp) (by simp))
      (renderOperands_balanced ws lp rp nodes)
    exact balanced_wrap ⟨.Open, lp⟩ ⟨.Close, rp⟩
      (⟨.Identifier, op⟩ :: renderOperands ws lp rp nodes) rfl rfl h
theorem renderOperands_balanced (ws lp rp : String) :
    ∀ nodes : List Node, balanced (renderOperands ws lp rp nodes)
  | [] => by rw [renderOperands]; exact balanced_nil
  | node :: rest => by
    rw [renderOperands]
    have h := balanced_append (balanced_singleton ⟨.Whitespace, ws⟩ (by simp) (by simp))
      (balanced_append (renderOperand_balanced ws lp rp node)
        (renderOperands_balanced ws lp rp rest))
    simpa using h
end

end Parse

namespace Parse

/-! ## Parsing a canonical rendering -/

mutual
theorem parseLoop_renderOperand (ws lp rp : String) :
    ∀ (node : Node), node.valuesInRange = true →
      ∀ (op : String) (acc : List Node) (suffix : List Token),
        parseLoop op acc (⟨.Whitespace, ws⟩ :: (renderOperand ws lp rp node ++ suffix))
          = parseLoop op (acc ++ [node]) suffix
  | .ValueNode v, h, op, acc, suffix => by
    have hv : inIntRange v := by simpa [Node.valuesInRange] using h
    rw [renderOperand, List.singleton_append, parseLoop_number op acc _ _ _ rfl rfl]
    simp only [Atoi_decimalText v hv]
  | .ExpressionNode op' nodes, h, op, acc, suffix => by
    have hn : allValuesInRange nodes = true := by simpa [Node.valuesInRange] using h
    have hbal : balanced (⟨.Identifier, op'⟩ :: renderOperands ws lp rp nodes) := by
      have := balanced_append (balanced_singleton ⟨.Identifier, op'⟩ (by simp) (by simp))
        (renderOperands_balanced ws lp rp nodes)
      simpa using this
    have hshape : renderOperand ws lp rp (.ExpressionNode op' nodes) ++ suffix
        = ⟨.Open, lp⟩ :: ((⟨.Identifier, op'⟩ :: renderOperands ws lp rp nodes)
            ++ ⟨.Close, rp⟩ :: suffix) := by
      rw [renderOperand]
      simp
    have hidx := findMatchingClose_balanced ⟨.Open, lp⟩ ⟨.Close, rp⟩
      (⟨.Identifier, op'⟩ :: renderOperands ws lp rp nodes) suffix rfl rfl hbal
    have hinner : ParseExpression (⟨.Identifier, op'⟩ :: renderOperands ws lp rp nodes)
        = .ok (.ExpressionNode op' nodes, none) := by
      rw [ParseExpression_cons_identifier _ _ rfl]
      have := parseLoop_renderOperands ws lp rp nodes hn op' [] []
      simp only [List.append_nil, List.nil_append] at this
      rw [this, parseLoop_nil]
    rw [hshape, parseLoop_open op acc _ _ _ rfl rfl, hidx]
    have h1 : ¬ (((⟨.Identifier, op'⟩ :: renderOperands ws lp rp nodes).length + 1 : Nat) : Int)
        = -1 := by omega
    have h2 : ¬ (((⟨.Identifier, op'⟩ :: renderOperands ws lp rp nodes).length + 1 : Nat) : Int)
        < 1 := by omega
    rw [if_neg h1, if_neg h2]
    have htake : List.take
        ((((⟨.Identifier, op'⟩ :: renderOperands ws lp rp nodes).length + 1 : Nat) : Int).toNat - 1)
        ((⟨.Identifier, op'⟩ :: renderOperands ws lp rp nodes) ++ ⟨.Close, rp⟩ :: suffix)
        = ⟨.Identifier, op'⟩ :: renderOperands ws lp rp nodes := by
      rw [Int.toNat_ofNat, Nat.add_sub_cancel, List.take_left]
    have hdrop : List.drop
        (((⟨.Identifier, op'⟩ :: renderOperands ws lp rp nodes).length + 1 : Nat) : Int).toNat
        ((⟨.Identifier, op'⟩ :: renderOperands ws lp rp nodes) ++ ⟨.Close, rp⟩ :: suffix)
        = suffix := by
      rw [Int.toNat_ofNat, List.drop_append_eq_append_drop]
      simp
    rw [htake, hdrop, hinner]
theorem parseLoop_renderOperands (ws lp rp : String) :
    ∀ (nodes : List Node), allValuesInRange nodes = true →
      ∀ (op : String) (acc : List Node) (suffix : List Token),
        parseLoop op acc (renderOperands ws lp rp nodes ++ suffix)
          = parseLoop op (acc ++ nodes) suffix
  | [], _, op, acc, suffix => by
    rw [renderOperands]
    simp
  | node :: rest, h, op, acc, suffix => by
    have h2 : node.valuesInRange = true ∧ allValuesInRange rest = true := by
      simpa [allValuesInRange] using h
    rw [renderOperands, List.cons_append, List.append_assoc,
      parseLoop_renderOperand ws lp rp node h2.1,
      parseLoop_renderOperands ws lp rp rest h2.2]
    simp
end

theorem ParseExpression_render (ws lp rp : String) (op : String) (nodes : List Node)
    (h : allValuesInRange nodes = true) :
    ParseExpression (render ws lp rp op nodes) = .ok (.ExpressionNode op nodes, none) := by
  rw [render, ParseExpression_cons_identifier _ _ rfl]
  have := parseLoop_renderOperands ws lp rp nodes h op [] []
  simp only [List.append_nil, List.nil_append] at this
  rw [this, parseLoop_nil]

end Parse

namespace Parse

/-! ## `ParseExpression` on bare and on parenthesised input -/

theorem parseLoop_numbers (ws op : String) (nums : List Int) (h : ∀ n ∈ nums, inIntRange n)
    (acc : List Node) (suffix : List Token) :
    parseLoop op acc
        (nums.flatMap (fun n => [⟨.Whitespace, ws⟩, ⟨.Number, decimalText n⟩]) ++ suffix)
      = parseLoop op (acc ++ nums.map .ValueNode) suffix := by
  induction nums generalizing acc with
  | nil => simp
  | cons n more ih =>
    have hn := h n (List.mem_cons_self _ _)
    simp only [List.flatMap_cons, List.cons_append, List.nil_append, List.map_cons]
    rw [parseLoop_number op acc _ _ _ rfl rfl]
    simp only [Atoi_decimalText n hn]
    rw [ih (fun m hm => h m (List.mem_cons_of_mem _ hm))]
    simp

/-- C11 (as stated, refuted): on the token sequence of `(+ 1 2)`, which begins
with `Open`, `ParseExpression` does not succeed: it fails with `UnexpectedToken`
carrying the `Open` token. -/
theorem ParseExpression_parenthesised_counterexample :
    ParseExpression [⟨.Open, "("⟩, ⟨.Identifier, "+"⟩, ⟨.Whitespace, " "⟩, ⟨.Number, "1"⟩,
        ⟨.Whitespace, " "⟩, ⟨.Number, "2"⟩, ⟨.Close, ")"⟩]
      = .ok (.ExpressionNode "" [], some (.UnexpectedToken ⟨.Open, "("⟩)) :=
  ParseExpression_cons_other _ _ (by decide) (by decide)

/-- C11 (amended): for the token sequence of the bare expression `+ 1 2`
(`Identifier "+"`, `Whitespace`, `Number "1"`, `Whitespace`, `Number "2"`), and
generally of `op n1 ... nk` for any identifier `op` and numbers `n1..nk`, each
number preceded by one `Whitespace` token, `ParseExpression` succeeds and yields
the expression with operation `op` and operands `n1..nk` in order; evaluating
the tree parsed from `+ 1 2` yields `3`. -/
theorem ParseExpression_bare_numbers (ws op : String) (nums : List Int)
    (h : ∀ n ∈ nums, inIntRange n) :
    ParseExpression (⟨.Identifier, op⟩ ::
        nums.flatMap (fun n => [⟨.Whitespace, ws⟩, ⟨.Number, decimalText n⟩]))
      = .ok (.ExpressionNode op (nums.map .ValueNode), none)
    ∧ ParseExpression [⟨.Identifier, "+"⟩, ⟨.Whitespace, " "⟩, ⟨.Number, "1"⟩,
        ⟨.Whitespace, " "⟩, ⟨.Number, "2"⟩]
      = .ok (.ExpressionNode "+" [.ValueNode 1, .ValueNode 2], none)
    ∧ Node.Evaluate (.ExpressionNode "+" [.ValueNode 1, .ValueNode 2]) = .ok (3, none) := by
  have key : ∀ (ws op : String) (nums : List Int), (∀ n ∈ nums, inIntRange n) →
      ParseExpression (⟨.Identifier, op⟩ ::
          nums.flatMap (fun n => [⟨.Whitespace, ws⟩, ⟨.Number, decimalText n⟩]))
        = .ok (.ExpressionNode op (nums.map .ValueNode), none) := by
    intro ws op nums h
    rw [ParseExpression_cons_identifier _ _ rfl]
    have := parseLoop_numbers ws op nums h [] []
    simp only [List.append_nil, List.nil_append] at this
    rw [this, parseLoop_nil]
  refine ⟨key ws op nums h, ?_, rfl⟩
  exact key " " "+" [1, 2] (by decide)

/-- C11 (amended) at `* 3 -4 5`. -/
theorem ParseExpression_bare_numbers_witness :
    ParseExpression [⟨.Identifier, "*"⟩, ⟨.Whitespace, " "⟩, ⟨.Number, "3"⟩,
        ⟨.Whitespace, " "⟩, ⟨.Number, "-4"⟩, ⟨.Whitespace, " "⟩, ⟨.Number, "5"⟩]
      = .ok (.ExpressionNode "*" [.ValueNode 3, .ValueNode (-4), .ValueNode 5], none) :=
  have h : ∀ n ∈ [(3 : Int), -4, 5], inIntRange n := by decide
  (ParseExpression_bare_numbers " " "*" [3, -4, 5] h).1

/-! ## Unbalanced input -/

theorem findMatchingClose_unmatched (first : Token) (rest : List Token)
    (hopen : first.type = .Open)
    (h : ∀ i, i < (first :: rest).length → depthOf ((first :: rest).take (i + 1)) ≠ 0) :
    findMatchingClose (first :: rest) = -1 := by
  rw [findMatchingClose_cons_open first rest hopen]
  rcases findMatchingCloseLoop_result 1 1 rest with hneg | ⟨n, hn, hk⟩
  · exact hneg
  · obtain ⟨_, _, h3, _⟩ := findMatchingCloseLoop_found rest 1 1 n le_rfl hk
    have := h (n + 1) (by simpa using hn)
    rw [depthOf_take_succ_open first rest hopen] at this
    exact absurd h3 this

/-- C12 (as stated, refuted): on the tokens of `(+ 1 2`, whose `Open` token has
no matching `Close`, `ParseExpression` fails with `UnexpectedToken` carrying the
`Open` token, not with `UnexpectedEOI`. -/
theorem ParseExpression_unbalanced_counterexample :
    ParseExpression [⟨.Open, "("⟩, ⟨.Identifier, "+"⟩, ⟨.Whitespace, " "⟩, ⟨.Number, "1"⟩,
        ⟨.Whitespace, " "⟩, ⟨.Number, "2"⟩]
      = .ok (.ExpressionNode "" [], some (.UnexpectedToken ⟨.Open, "("⟩))
    ∧ (ParseError.UnexpectedToken ⟨.Open, "("⟩) ≠ ParseError.UnexpectedEOI :=
  ⟨ParseExpression_cons_other _ _ (by decide) (by decide), by decide⟩

/-- C12 (amended): for every token list made of the canonical rendering of an
expression `op e1 ... ek` followed by a `Whitespace` token and an `Open` token
that has no matching `Close` token in the rest of the list (the depth counter
started at that `Open` never returns to zero), `ParseExpression` fails with
`UnexpectedEOI`. -/
theorem ParseExpression_unmatched_open (ws lp rp op : String) (nodes : List Node)
    (hvals : allValuesInRange nodes = true) (sep first : Token) (rest : List Token)
    (hsep : sep.type = .Whitespace) (hopen : first.type = .Open)
    (hunmatched : ∀ i, i < (first :: rest).length →
      depthOf ((first :: rest).take (i + 1)) ≠ 0) :
    ParseExpression (render ws lp rp op nodes ++ sep :: first :: rest)
      = .ok (.ExpressionNode "" [], some .UnexpectedEOI) := by
  rw [render, List.cons_append, ParseExpression_cons_identifier _ _ rfl,
    parseLoop_renderOperands ws lp rp nodes hvals, parseLoop_open _ _ _ _ _ hsep hopen,
    findMatchingClose_unmatched first rest hopen hunmatched]
  simp

/-- C12 (amended) at the tokens of `+ 1 (+ 2 3`. -/
theorem ParseExpression_unmatched_open_witness :
    ParseExpression [⟨.Identifier, "+"⟩, ⟨.Whitespace, " "⟩, ⟨.Number, "1"⟩,
        ⟨.Whitespace, " "⟩, ⟨.Open, "("⟩, ⟨.Identifier, "+"⟩, ⟨.Whitespace, " "⟩,
        ⟨.Number, "2"⟩, ⟨.Whitespace, " "⟩, ⟨.Number, "3"⟩]
      = .ok (.ExpressionNode "" [], some .UnexpectedEOI) :=
  ParseExpression_unmatched_open " " "(" ")" "+" [.ValueNode 1] (by decide) ⟨.Whitespace, " "⟩
    ⟨.Open, "("⟩ [⟨.Identifier, "+"⟩, ⟨.Whitespace, " "⟩, ⟨.Number, "2"⟩, ⟨.Whitespace, " "⟩,
      ⟨.Number, "3"⟩] rfl rfl (by decide)

/-! ## Tokens after the last separator -/

/-- C13 (the code at the failing input): on `+ 1` directly followed by the
`Number` token `2`, with no `Whitespace` token between them, `ParseExpression`
succeeds with the tree `+ 1`: the loop ends at the first token that is not
preceded by a `Whitespace` token and the remaining tokens are dropped without
an `UnexpectedToken` error.  The same happens to a stray `Close` token. -/
theorem ParseExpression_drops_trailing_tokens :
    ParseExpression [⟨.Identifier, "+"⟩, ⟨.Whitespace, " "⟩, ⟨.Number, "1"⟩, ⟨.Number, "2"⟩]
      = .ok (.ExpressionNode "+" [.ValueNode 1], none)
    ∧ ParseExpression [⟨.Identifier, "+"⟩, ⟨.Whitespace, " "⟩, ⟨.Number, "1"⟩, ⟨.Close, ")"⟩,
        ⟨.Identifier, "x"⟩]
      = .ok (.ExpressionNode "+" [.ValueNode 1], none) := by
  constructor
  · rw [ParseExpression_cons_identifier _ _ rfl, parseLoop_number _ _ _ _ _ rfl rfl,
      parseLoop_no_whitespace _ _ _ _ (by decide)]
    rfl
  · rw [ParseExpression_cons_identifier _ _ rfl, parseLoop_number _ _ _ _ _ rfl rfl,
      parseLoop_no_whitespace _ _ _ _ (by decide)]
    rfl

/-! ## Parsing inverts rendering -/

/-- C18: parsing inverts canonical rendering: for every tree made of an
`ExpressionNode` (any operation name, any number of operands) whose operands are
`ValueNode`s (holding values of Go's `int`) or such `ExpressionNode`s, rendering
it as tokens — the operation as an `Identifier` token, then each operand
preceded by exactly one `Whitespace` token, a `ValueNode` as a `Number` token
holding its decimal text, a nested expression as `Open`, its rendering, `Close`
— and calling `ParseExpression` on the result returns exactly that tree and no
error. -/
theorem ParseExpression_inverts_render (ws lp rp op : String) (nodes : List Node)
    (hvals : allValuesInRange nodes = true) :
    ParseExpression (render ws lp rp op nodes) = .ok (.ExpressionNode op nodes, none) :=
  ParseExpression_render ws lp rp op nodes hvals

/-- C18 at the tree `+ 1 (* 2 -3) (neg)`. -/
theorem ParseExpression_inverts_render_witness :
    ParseExpression [⟨.Identifier, "+"⟩, ⟨.Whitespace, " "⟩, ⟨.Number, "1"⟩,
        ⟨.Whitespace, " "⟩, ⟨.Open, "("⟩, ⟨.Identifier, "*"⟩, ⟨.Whitespace, " "⟩,
        ⟨.Number, "2"⟩, ⟨.Whitespace, " "⟩, ⟨.Number, "-3"⟩, ⟨.Close, ")"⟩,
        ⟨.Whitespace, " "⟩, ⟨.Open, "("⟩, ⟨.Identifier, "neg"⟩, ⟨.Close, ")"⟩]
      = .ok (.ExpressionNode "+" [.ValueNode 1,
          .ExpressionNode "*" [.ValueNode 2, .ValueNode (-3)], .ExpressionNode "neg" []], none) := by
  have h := ParseExpression_inverts_render " " "(" ")" "+" [.ValueNode 1,
    .ExpressionNode "*" [.ValueNode 2, .ValueNode (-3)], .ExpressionNode "neg" []] (by decide)
  have hr : render " " "(" ")" "+" [.ValueNode 1,
      .ExpressionNode "*" [.ValueNode 2, .ValueNode (-3)], .ExpressionNode "neg" []]
      = [⟨.Identifier, "+"⟩, ⟨.Whitespace, " "⟩, ⟨.Number, "1"⟩,
        ⟨.Whitespace, " "⟩, ⟨.Open, "("⟩, ⟨.Identifier, "*"⟩, ⟨.Whitespace, " "⟩,
        ⟨.Number, "2"⟩, ⟨.Whitespace, " "⟩, ⟨.Number, "-3"⟩, ⟨.Close, ")"⟩,
        ⟨.Whitespace, " "⟩, ⟨.Open, "("⟩, ⟨.Identifier, "neg"⟩, ⟨.Close, ")"⟩] := rfl
  rw [hr] at h
  exact h

end Parse

namespace Parse

/-! ## Whitespace tokens -/

theorem findMatchingCloseLoop_append_whitespace (sep : Token) (hsep : sep.type = .Whitespace)
    (tokens : List Token) (depth : Int) (i : Nat) :
    findMatchingCloseLoop depth i (tokens ++ [sep]) = findMatchingCloseLoop depth i tokens := by
  induction tokens generalizing depth i with
  | nil => simp [findMatchingCloseLoop, hsep]
  | cons t rest ih =>
    rw [List.cons_append, findMatchingCloseLoop, findMatchingCloseLoop]
    cases hty : t.type <;> simp only [ih]

theorem findMatchingClose_append_whitespace (sep : Token) (hsep : sep.type = .Whitespace)
    (tokens : List Token) :
    findMatchingClose (tokens ++ [sep]) = findMatchingClose tokens :=
  findMatchingCloseLoop_append_whitespace sep hsep tokens 0 0

theorem findMatchingClose_lt_length (tokens : List Token) :
    findMatchingClose tokens = -1 ∨ findMatchingClose tokens < (tokens.length : Int) := by
  rcases findMatchingCloseLoop_result 0 0 tokens with h | ⟨n, hn, h⟩
  · exact Or.inl h
  · right
    unfold findMatchingClose
    rw [h]
    omega

theorem parseLoop_append_whitespace (sep : Token) (hsep : sep.type = .Whitespace) :
    ∀ (n : Nat) (input : List Token), input.length = n →
      (∀ last, input.getLast? = some last → last.type ≠ .Whitespace) →
      ∀ (op : String) (acc : List Node),
        parseLoop op acc (input ++ [sep]) = parseLoop op acc input := by
  intro n
  induction n using Nat.strong_induction_on with
  | _ n ih =>
    intro input hlen hlast op acc
    match input, hlen, hlast with
    | [], _, _ =>
      rw [List.nil_append, parseLoop_whitespace_end op acc sep hsep, parseLoop_nil]
    | [t], _, hlast =>
      have ht : t.type ≠ .Whitespace := hlast t rfl
      rw [List.cons_append, parseLoop_no_whitespace op acc t _ ht,
        parseLoop_no_whitespace op acc t _ ht]
    | t :: u :: rest, hlen, hlast =>
      by_cases ht : t.type = .Whitespace
      · have hlast2 : ∀ last, rest.getLast? = some last → last.type ≠ .Whitespace := by
          intro last hl
          apply hlast last
          cases rest with
          | nil => simp at hl
          | cons r rs => simpa using hl
        cases hu : u.type with
        | Number =>
          rw [List.cons_append, List.cons_append, parseLoop_number op acc t u _ ht hu,
            parseLoop_number op acc t u _ ht hu]
          exact ih rest.length (by simp at hlen; omega) rest rfl hlast2 op _
        | Open =>
          rw [List.cons_append, List.cons_append, parseLoop_open op acc t u _ ht hu,
            parseLoop_open op acc t u _ ht hu]
          have hfind : findMatchingClose (u :: (rest ++ [sep])) = findMatchingClose (u :: rest) :=
            findMatchingClose_append_whitespace sep hsep (u :: rest)
          rw [hfind]
          by_cases h1 : findMatchingClose (u :: rest) = -1
          · simp [h1]
          · by_cases h2 : findMatchingClose (u :: rest) < 1
            · simp [h1, h2]
            · rw [if_neg h1, if_neg h2, if_neg h1, if_neg h2]
              have hbound : (findMatchingClose (u :: rest)).toNat ≤ rest.length := by
                rcases findMatchingClose_lt_length (u :: rest) with h | h
                · exact absurd h h1
                · simp only [List.length_cons] at h
                  omega
              rw [List.take_append_of_le_length (by omega),
                List.drop_append_of_le_length hbound]
              have hrec : ∀ nodes2 : List Node,
                  parseLoop op nodes2
                      (List.drop (findMatchingClose (u :: rest)).toNat rest ++ [sep])
                    = parseLoop op nodes2
                      (List.drop (findMatchingClose (u :: rest)).toNat rest) := by
                intro nodes2
                refine ih _ ?_ _ rfl ?_ op nodes2
                · simp only [List.length_drop]
                  simp only [List.length_cons] at hlen
                  omega
                · intro last hl
                  rw [List.getLast?_drop] at hl
                  split at hl
                  · simp at hl
                  · exact hlast2 last hl
              cases hp : ParseExpression
                  (List.take ((findMatchingClose (u :: rest)).toNat - 1) rest) with
              | error p => rfl
              | ok res =>
                obtain ⟨nested, err⟩ := res
                cases err with
                | some e => rfl
                | none => exact hrec _
        | Whitespace =>
          rw [List.cons_append, List.cons_append,
            parseLoop_unexpected op acc t u _ ht (by simp [hu]) (by simp [hu]),
            parseLoop_unexpected op acc t u _ ht (by simp [hu]) (by simp [hu])]
        | Identifier =>
          rw [List.cons_append, List.cons_append,
            parseLoop_unexpected op acc t u _ ht (by simp [hu]) (by simp [hu]),
            parseLoop_unexpected op acc t u _ ht (by simp [hu]) (by simp [hu])]
        | Close =>
          rw [List.cons_append, List.cons_append,
            parseLoop_unexpected op acc t u _ ht (by simp [hu]) (by simp [hu]),
            parseLoop_unexpected op acc t u _ ht (by simp [hu]) (by simp [hu])]
      · rw [List.cons_append, parseLoop_no_whitespace op acc t _ ht,
          parseLoop_no_whitespace op acc t _ ht]

/-- C14 (as stated, refuted): replacing the single `Whitespace` token of `+ 1` by
a run of two changes the result from the tree `+ 1` to the error
`UnexpectedToken` carrying a `Whitespace` token; so does adding a `Whitespace`
token at the end of `+ 1 `, which already ends with one. -/
theorem ParseExpression_whitespace_run_counterexample :
    ParseExpression [⟨.Identifier, "+"⟩, ⟨.Whitespace, " "⟩, ⟨.Number, "1"⟩]
      = .ok (.ExpressionNode "+" [.ValueNode 1], none)
    ∧ ParseExpression [⟨.Identifier, "+"⟩, ⟨.Whitespace, " "⟩, ⟨.Whitespace, " "⟩,
        ⟨.Number, "1"⟩]
      = .ok (.ExpressionNode "" [], some (.UnexpectedToken ⟨.Whitespace, " "⟩))
    ∧ ParseExpression [⟨.Identifier, "+"⟩, ⟨.Whitespace, " "⟩, ⟨.Number, "1"⟩,
        ⟨.Whitespace, " "⟩]
      = .ok (.ExpressionNode "+" [.ValueNode 1], none)
    ∧ ParseExpression [⟨.Identifier, "+"⟩, ⟨.Whitespace, " "⟩, ⟨.Number, "1"⟩,
        ⟨.Whitespace, " "⟩, ⟨.Whitespace, " "⟩]
      = .ok (.ExpressionNode "" [], some (.UnexpectedToken ⟨.Whitespace, " "⟩)) := by
  refine ⟨?_, ?_, ?_, ?_⟩
  · rw [ParseExpression_cons_identifier _ _ rfl, parseLoop_number _ _ _ _ _ rfl rfl,
      parseLoop_nil]
    rfl
  · rw [ParseExpression_cons_identifier _ _ rfl,
      parseLoop_unexpected _ _ _ _ _ rfl (by decide) (by decide)]
  · rw [ParseExpression_cons_identifier _ _ rfl, parseLoop_number _ _ _ _ _ rfl rfl,
      parseLoop_whitespace_end _ _ _ rfl]
    rfl
  · rw [ParseExpression_cons_identifier _ _ rfl, parseLoop_number _ _ _ _ _ rfl rfl,
      parseLoop_unexpected _ _ _ _ _ rfl (by decide) (by decide)]

/-- C14 (amended): a `Whitespace` token is a single separator: for every token
list that does not begin with a `Whitespace` token, adding one `Whitespace`
token at the start does not change the result of `ParseExpression`, and for
every token list that does not end with a `Whitespace` token, adding one
`Whitespace` token at the end does not change the result (same tree, or same
error). -/
theorem ParseExpression_one_whitespace_at_the_ends (input : List Token) (sep : Token)
    (hsep : sep.type = .Whitespace) :
    ((∀ first, input.head? = some first → first.type ≠ .Whitespace) →
        ParseExpression (sep :: input) = ParseExpression input)
    ∧ ((∀ last, input.getLast? = some last → last.type ≠ .Whitespace) →
        ParseExpression (input ++ [sep]) = ParseExpression input) := by
  constructor
  · intro hfirst
    rw [ParseExpression_of_trim, ParseExpression_of_trim input,
      trimWhitespace_whitespace sep input hsep]
    cases input with
    | nil => rfl
    | cons t rest => rw [trimWhitespace_other t rest (hfirst t rfl)]
  · intro hlast
    match input, hlast with
    | [], _ =>
      rw [List.nil_append, ParseExpression_cons_whitespace sep [] hsep, ParseExpression_nil]
    | [t], hlast =>
      have ht : t.type ≠ .Whitespace := hlast t rfl
      by_cases hid : t.type = .Identifier
      · rw [List.cons_append, ParseExpression_cons_identifier t _ hid,
          ParseExpression_cons_identifier t _ hid]
        exact parseLoop_append_whitespace sep hsep 0 [] rfl (by simp) _ _
      · rw [List.cons_append, ParseExpression_cons_other t _ hid ht,
          ParseExpression_cons_other t _ hid ht]
    | t :: u :: rest, hlast =>
      have hlast1 : ∀ last, (u :: rest).getLast? = some last → last.type ≠ .Whitespace := by
        intro last hl
        exact hlast last (by simpa using hl)
      by_cases hid : t.type = .Identifier
      · rw [List.cons_append, ParseExpression_cons_identifier t _ hid,
          ParseExpression_cons_identifier t _ hid]
        exact parseLoop_append_whitespace sep hsep _ (u :: rest) rfl hlast1 _ _
      · by_cases ht : t.type = .Whitespace
        · rw [List.cons_append, List.cons_append, ParseExpression_cons_whitespace t _ ht,
            ParseExpression_cons_whitespace t _ ht]
          by_cases hu : u.type = .Identifier
          · simp only [hu, ne_eq, not_true_eq_false, if_false]
            refine parseLoop_append_whitespace sep hsep _ rest rfl ?_ _ _
            intro last hl
            apply hlast1 last
            cases rest with
            | nil => simp at hl
            | cons r rs => simpa using hl
          · simp only [ne_eq, hu, not_false_eq_true, if_true]
        · rw [List.cons_append, ParseExpression_cons_other t _ hid ht,
            ParseExpression_cons_other t _ hid ht]

/-- C14 (amended) at the tokens of `+ 1 (* 2 3)`: one `Whitespace` token more at
the start, or at the end, gives the same tree. -/
theorem ParseExpression_one_whitespace_at_the_ends_witness :
    ParseExpression (⟨.Whitespace, " "⟩ :: [⟨.Identifier, "+"⟩, ⟨.Whitespace, " "⟩,
        ⟨.Number, "1"⟩, ⟨.Whitespace, " "⟩, ⟨.Open, "("⟩, ⟨.Identifier, "*"⟩,
        ⟨.Whitespace, " "⟩, ⟨.Number, "2"⟩, ⟨.Whitespace, " "⟩, ⟨.Number, "3"⟩, ⟨.Close, ")"⟩])
      = ParseExpression [⟨.Identifier, "+"⟩, ⟨.Whitespace, " "⟩,
        ⟨.Number, "1"⟩, ⟨.Whitespace, " "⟩, ⟨.Open, "("⟩, ⟨.Identifier, "*"⟩,
        ⟨.Whitespace, " "⟩, ⟨.Number, "2"⟩, ⟨.Whitespace, " "⟩, ⟨.Number, "3"⟩, ⟨.Close, ")"⟩]
    ∧ ParseExpression ([⟨.Identifier, "+"⟩, ⟨.Whitespace, " "⟩,
        ⟨.Number, "1"⟩, ⟨.Whitespace, " "⟩, ⟨.Open, "("⟩, ⟨.Identifier, "*"⟩,
        ⟨.Whitespace, " "⟩, ⟨.Number, "2"⟩, ⟨.Whitespace, " "⟩, ⟨.Number, "3"⟩, ⟨.Close, ")"⟩]
          ++ [⟨.Whitespace, " "⟩])
      = ParseExpression [⟨.Identifier, "+"⟩, ⟨.Whitespace, " "⟩,
        ⟨.Number, "1"⟩, ⟨.Whitespace, " "⟩, ⟨.Open, "("⟩, ⟨.Identifier, "*"⟩,
        ⟨.Whitespace, " "⟩, ⟨.Number, "2"⟩, ⟨.Whitespace, " "⟩, ⟨.Number, "3"⟩, ⟨.Close, ")"⟩] :=
  have h := ParseExpression_one_whitespace_at_the_ends [⟨.Identifier, "+"⟩, ⟨.Whitespace, " "⟩,
        ⟨.Number, "1"⟩, ⟨.Whitespace, " "⟩, ⟨.Open, "("⟩, ⟨.Identifier, "*"⟩,
        ⟨.Whitespace, " "⟩, ⟨.Number, "2"⟩, ⟨.Whitespace, " "⟩, ⟨.Number, "3"⟩, ⟨.Close, ")"⟩]
      ⟨.Whitespace, " "⟩ rfl
  ⟨h.1 (by decide), h.2 (by decide)⟩

end Parse
